import Mathlib

/-!
Verification of the Golden Wings classification / naming core
(`classify_content_types.py` and `design_naming_conventions.py`).

Text is modelled as `List Char` (`Str`).  Python regular-expression
searching (`re.search` with `re.IGNORECASE`) is abstracted as an oracle
parameter `rsearch : Str → Str → Bool` (pattern, text ↦ found); concrete
claims instantiate it with `litSearch`, which is the behaviour of
`re.search` on metacharacter-free patterns (optionally carrying a literal
`(?i)` flag).
-/

namespace GW

abbrev Str := List Char

/-- Lower-case a string, character by character (models Python `str.lower`
for the ASCII inputs the pipeline handles). -/
def lowerStr (s : Str) : Str := s.map Char.toLower

/-- Strip whitespace from both ends (models Python `str.strip()`). -/
def trimStr (s : Str) : Str :=
  ((s.dropWhile Char.isWhitespace).reverse.dropWhile Char.isWhitespace).reverse

/-- If `pat` is a leading part of `s`, return the remainder. -/
def peel? : Str → Str → Option Str
  | [], s => some s
  | _ :: _, [] => none
  | o :: os, c :: cs => if c = o then peel? os cs else none

theorem peel?_eq_some (o : Str) : ∀ (s t : Str), peel? o s = some t ↔ s = o ++ t := by
  induction o with
  | nil =>
    intro s t
    simp [peel?]
  | cons oh ot ih =>
    intro s t
    cases s with
    | nil => simp [peel?]
    | cons ch cs =>
      simp only [peel?, List.cons_append, List.cons.injEq]
      by_cases hco : ch = oh
      · rw [if_pos hco, ih cs t]
        simp [hco]
      · rw [if_neg hco]
        simp [hco]

theorem peel?_length (o s t : Str) (h : peel? o s = some t) :
    t.length + o.length = s.length := by
  rw [peel?_eq_some] at h
  subst h
  simp [List.length_append]
  omega

/-- Does `pat` occur as a contiguous run somewhere inside `s`? -/
def occursB (pat : Str) : Str → Bool
  | [] => (peel? pat []).isSome
  | c :: cs => (peel? pat (c :: cs)).isSome || occursB pat cs

/-- Worker for `replaceAll`: a positive `skip` consumes characters already
covered by an emitted replacement; at `skip = 0` an occurrence of `old`
emits `new` and schedules the occurrence's characters for consumption. -/
def raGo (old new : Str) : Nat → Str → Str
  | skip + 1, _ :: rest => raGo old new skip rest
  | _, [] => []
  | 0, c :: rest =>
    if !old.isEmpty && (peel? old (c :: rest)).isSome then
      new ++ raGo old new (old.length - 1) rest
    else c :: raGo old new 0 rest

/-- Python `str.replace(old, new)`: replace non-overlapping occurrences of
`old` left to right.  An empty `old` is treated as "no occurrence" (the
source never calls `replace` with an empty token). -/
def replaceAll (old new : Str) (s : Str) : Str := raGo old new 0 s

theorem raGo_drop (old new : Str) : ∀ (s : Str) (k : Nat),
    raGo old new k s = raGo old new 0 (s.drop k) := by
  intro s
  induction s with
  | nil => intro k; cases k <;> simp [raGo]
  | cons c rest ih =>
    intro k
    cases k with
    | zero => simp
    | succ k => simpa [raGo] using ih k

theorem replaceAll_nil (old new : Str) : replaceAll old new [] = [] := rfl

/-- The one-step unfolding of Python `str.replace`. -/
theorem replaceAll_cons (old new : Str) (c : Char) (rest : Str) :
    replaceAll old new (c :: rest) =
      if !old.isEmpty && (peel? old (c :: rest)).isSome then
        new ++ replaceAll old new ((c :: rest).drop old.length)
      else c :: replaceAll old new rest := by
  show raGo old new 0 (c :: rest) = _
  rw [raGo]
  by_cases h : (!old.isEmpty && (peel? old (c :: rest)).isSome) = true
  · rw [if_pos h, if_pos h, raGo_drop]
    have hne : ¬ old.isEmpty := by
      cases hob : old.isEmpty <;> simp [hob] at h ⊢
    have hlen : 1 ≤ old.length := by
      cases old with
      | nil => simp [List.isEmpty] at hne
      | cons _ _ => simp
    have : (c :: rest).drop old.length = rest.drop (old.length - 1) := by
      cases hol : old.length with
      | zero => omega
      | succ m => simp
    rw [this]
    rfl
  · rw [if_neg h, if_neg h]
    rfl

/-- Split `s` at its first `'\x7d'`: returns the (brace-free) part before
it and the part after it. -/
def splitClose? : Str → Option (Str × Str)
  | [] => none
  | c :: cs =>
    if c = '}' then some ([], cs)
    else (splitClose? cs).map (fun p => (c :: p.1, p.2))

theorem splitClose?_spec : ∀ (s g r : Str), splitClose? s = some (g, r) →
    s = g ++ '}' :: r ∧ '}' ∉ g := by
  intro s
  induction s with
  | nil => intro g r h; simp [splitClose?] at h
  | cons c cs ih =>
    intro g r h
    simp only [splitClose?] at h
    by_cases hc : c = '}'
    · rw [if_pos hc] at h
      simp only [Option.some.injEq, Prod.mk.injEq] at h
      obtain ⟨h1, h2⟩ := h
      subst h1; subst h2; subst hc
      simp
    · rw [if_neg hc] at h
      cases hsc : splitClose? cs with
      | none => rw [hsc] at h; exact Option.noConfusion h
      | some p =>
        rw [hsc] at h
        simp only [Option.map_some', Option.some.injEq, Prod.mk.injEq] at h
        obtain ⟨h1, h2⟩ := h
        obtain ⟨ih1, ih2⟩ := ih p.1 p.2 (by rw [hsc])
        subst h2
        rw [← h1]
        constructor
        · rw [ih1]; simp
        · intro hmem
          rcases List.mem_cons.mp hmem with h | h
          · exact hc h.symm
          · exact ih2 h

theorem splitClose?_length (s g r : Str) (h : splitClose? s = some (g, r)) :
    r.length < s.length := by
  obtain ⟨h1, _⟩ := splitClose?_spec s g r h
  subst h1
  simp [List.length_append]
  omega

/-- The literal characters of `"Unknown"`. -/
def unknownStr : Str := "Unknown".data

/-- Worker for `subTokens`, with the same skip-counter scheme as `raGo`. -/
def stGo : Nat → Str → Str
  | skip + 1, _ :: rest => stGo skip rest
  | _, [] => []
  | 0, c :: rest =>
    if c = '{' then
      match splitClose? rest with
      | some (gap, _) =>
        if gap.isEmpty then '{' :: stGo 0 rest
        else unknownStr ++ stGo (gap.length + 1) rest
      | none => '{' :: stGo 0 rest
    else c :: stGo 0 rest

/-- Python `re.sub(r"\x7b[^\x7d]+\x7d", "Unknown", s)`: every complete
brace token with a nonempty body is replaced; an empty pair or an
unmatched opening brace is left in place. -/
def subTokens (s : Str) : Str := stGo 0 s

theorem stGo_drop : ∀ (s : Str) (k : Nat), stGo k s = stGo 0 (s.drop k) := by
  intro s
  induction s with
  | nil => intro k; cases k <;> simp [stGo]
  | cons c rest ih =>
    intro k
    cases k with
    | zero => simp
    | succ k => simpa [stGo] using ih k

theorem subTokens_nil : subTokens [] = [] := rfl

/-- The one-step unfolding of the brace-token scrub. -/
theorem subTokens_cons (c : Char) (rest : Str) :
    subTokens (c :: rest) =
      if c = '{' then
        match splitClose? rest with
        | some (gap, rest2) =>
          if gap.isEmpty then '{' :: subTokens rest
          else unknownStr ++ subTokens rest2
        | none => '{' :: subTokens rest
      else c :: subTokens rest := by
  show stGo 0 (c :: rest) = _
  rw [stGo]
  by_cases hc : c = '{'
  · rw [if_pos hc, if_pos hc]
    cases hsp : splitClose? rest with
    | none => rfl
    | some p =>
      obtain ⟨gap, rest2⟩ := p
      obtain ⟨hspec, -⟩ := splitClose?_spec rest gap rest2 hsp
      by_cases hg : gap.isEmpty
      · simp only [if_pos hg]; rfl
      · simp only [if_neg hg]
        rw [stGo_drop]
        have : rest.drop (gap.length + 1) = rest2 := by
          rw [hspec]
          rw [show gap.length + 1 = (gap ++ ['}']).length by simp]
          rw [show gap ++ '}' :: rest2 = (gap ++ ['}']) ++ rest2 by simp]
          exact List.drop_left _ _
        rw [this]
        rfl
  · rw [if_neg hc, if_neg hc]
    rfl

/-! ## Python values

JSON-derived Python values as they occur in the pipeline's records and
configs: scalars (`None`, `str`, `int`, `bool`) and flat lists of scalars
(keyword/value lists).  Truthiness and `str()` follow Python. -/

inductive PyScalar where
  | null
  | str (s : Str)
  | int (i : Int)
  | bool (b : Bool)
deriving DecidableEq

inductive PyVal where
  | scalar (v : PyScalar)
  | list (xs : List PyScalar)
deriving DecidableEq

def pyTruthyS : PyScalar → Bool
  | .null => false
  | .str s => ¬s.isEmpty
  | .int i => i ≠ 0
  | .bool b => b

/-- Python truthiness (`bool(v)`). -/
def pyTruthy : PyVal → Bool
  | .scalar v => pyTruthyS v
  | .list xs => ¬xs.isEmpty

def pyStrS : PyScalar → Str
  | .null => "None".data
  | .str s => s
  | .int i => (toString i).data
  | .bool b => if b then "True".data else "False".data

/-- Python `repr` for scalars, used only inside `str()` of a list (the
quote character is U+0027; escaping inside the quotes is elided). -/
def pyReprS : PyScalar → Str
  | .str s => Char.ofNat 39 :: s ++ [Char.ofNat 39]
  | v => pyStrS v

/-- Python `str(v)`. -/
def pyStr : PyVal → Str
  | .scalar v => pyStrS v
  | .list xs => '[' :: (List.intercalate ", ".data (xs.map pyReprS)) ++ [']']

/-- Python iteration over a value: lists yield their items, strings yield
their characters; anything else raises `TypeError`. -/
inductive PyErr where
  | valueError
  | typeError
deriving DecidableEq

instance {ε α : Type} [DecidableEq ε] [DecidableEq α] : DecidableEq (Except ε α) := fun a b =>
  match a, b with
  | .error e1, .error e2 =>
    if h : e1 = e2 then isTrue (by rw [h]) else isFalse (by intro hh; cases hh; exact h rfl)
  | .ok v1, .ok v2 =>
    if h : v1 = v2 then isTrue (by rw [h]) else isFalse (by intro hh; cases hh; exact h rfl)
  | .error _, .ok _ => isFalse (by intro hh; cases hh)
  | .ok _, .error _ => isFalse (by intro hh; cases hh)

def pyIter : PyVal → Except PyErr (List PyScalar)
  | .list xs => .ok xs
  | .scalar (.str s) => .ok (s.map (fun c => .str [c]))
  | _ => .error .typeError

def digitsVal? (l : Str) : Option Nat :=
  if !l.isEmpty && l.all Char.isDigit then
    some (l.foldl (fun a c => 10 * a + (c.toNat - 48)) 0)
  else none

/-- Python `int(str)`: optional surrounding whitespace, optional sign,
then decimal digits. -/
def parseIntStr (s : Str) : Option Int :=
  match trimStr s with
  | '-' :: r => (digitsVal? r).map (fun n => -(n : Int))
  | '+' :: r => (digitsVal? r).map (fun n => (n : Int))
  | r => (digitsVal? r).map (fun n => (n : Int))

/-- Python `int(v)`: ints and bools convert, parseable strings convert,
unparseable strings raise `ValueError`, anything else raises `TypeError`
(floats do not occur in the pipeline's JSON configs). -/
def pyToInt : PyVal → Except PyErr Int
  | .scalar (.int i) => .ok i
  | .scalar (.bool b) => .ok (if b then 1 else 0)
  | .scalar (.str s) =>
    match parseIntStr s with
    | some i => .ok i
    | none => .error .valueError
  | .scalar .null => .error .typeError
  | .list _ => .error .typeError

/-- A JSON object: an insertion-ordered association list, as a Python dict. -/
abbrev Dict := List (Str × PyVal)

def dgetD (d : Dict) (k : Str) (dflt : PyVal) : PyVal :=
  match d.find? (fun kv => decide (kv.1 = k)) with
  | some kv => kv.2
  | none => dflt

/-- Python `d.get(k)` (default `None`). -/
def dget (d : Dict) (k : String) : PyVal := dgetD d k.data (.scalar .null)

/-- Python `d.get(k, dflt)`. -/
def dgetOr (d : Dict) (k : String) (dflt : PyVal) : PyVal := dgetD d k.data dflt

/-- Python `k in d`. -/
def hasKey (d : Dict) (k : String) : Bool :=
  (d.find? (fun kv => decide (kv.1 = k.data))).isSome

/-- Python `a or b` (returns `b`, whatever its truthiness, when `a` is falsy). -/
def pyOr (a b : PyVal) : PyVal := if pyTruthy a then a else b

/-! ## `classify_content_types.py`: `FileRecord.__post_init__` derived fields

Each `rec_*` function computes one derived attribute from the raw record
dict, mirroring `FileRecord.__post_init__` (lines 138-167). -/

def rec_rank (raw : Dict) : PyVal := pyOr (dget raw "rank") (dget raw "Rank")

def rec_score (raw : Dict) : PyVal := pyOr (dget raw "score") (dget raw "Score")

def rec_file_name_pre (raw : Dict) : PyVal :=
  pyOr (dget raw "FileName") (dget raw "filename")

def rec_full_path_raw (raw : Dict) : PyVal :=
  pyOr (dget raw "FullPath") (dget raw "full_path")

/-- `PurePosixPath(p).name`: the part after the last slash. -/
def pathName (s : Str) : Str := (s.reverse.takeWhile (fun c => c ≠ '/')).reverse

def rec_file_name (raw : Dict) : PyVal :=
  if !pyTruthy (rec_file_name_pre raw) && pyTruthy (rec_full_path_raw raw) then
    .scalar (.str (pathName (pyStr (rec_full_path_raw raw))))
  else rec_file_name_pre raw

/-- `self.full_path = full_path_raw or ""`, read back as text. -/
def rec_full_path (raw : Dict) : Str :=
  if pyTruthy (rec_full_path_raw raw) then pyStr (rec_full_path_raw raw) else []

def rec_directory (raw : Dict) : Str :=
  pyStr (pyOr (pyOr (dget raw "Directory") (dget raw "directory")) (.scalar (.str [])))

/-- `[str(item) for item in keywords if item is not None]` where `keywords`
is `raw.get("Keywords") or raw.get("keywords") or []`. -/
def rec_keywords (raw : Dict) : List Str :=
  let kws := pyOr (pyOr (dget raw "Keywords") (dget raw "keywords")) (.list [])
  match pyIter kws with
  | .ok items => items.filterMap (fun v => match v with
      | PyScalar.null => none
      | v => some (pyStrS v))
  | .error _ => []

/-- The lower-cased keyword set (modelled as a list; only membership is
observed). -/
def rec_keywords_lower (raw : Dict) : List Str := (rec_keywords raw).map lowerStr

def rec_extension (raw : Dict) : Str :=
  let e0 := pyOr (pyOr (dget raw "Extension") (dget raw "extension")) (.scalar (.str []))
  let es := pyStr e0
  if pyTruthy e0 && !(es.head? = some '.') then '.' :: es else es

def rec_extension_lower (raw : Dict) : Str := lowerStr (rec_extension raw)

/-- `raw.get("Exists") if "Exists" in raw else raw.get("exists")`, then `bool()`. -/
def rec_exists (raw : Dict) : Bool :=
  pyTruthy (if hasKey raw "Exists" then dget raw "Exists" else dget raw "exists")

/-- `self.file_name or ""` as used by `get_text_for_target` and `extra_text`. -/
def rec_file_name_str (raw : Dict) : Str :=
  if pyTruthy (rec_file_name raw) then pyStr (rec_file_name raw) else []

/-- `FileRecord.extra_text`: space-joined nonempty text fields. -/
def extra_text (raw : Dict) : Str :=
  List.intercalate " ".data
    (([rec_file_name_str raw, rec_full_path raw, rec_directory raw,
       List.intercalate " ".data (rec_keywords raw)]).filter (fun p => !p.isEmpty))

/-- `FileRecord.get_text_for_target` (lines 169-181): the trigger-side
field-alias table. -/
def get_text_for_target (raw : Dict) (target : Str) : Str :=
  if target.isEmpty then rec_file_name_str raw
  else
    let v := lowerStr target
    if v = "filename".data ∨ v = "name".data then rec_file_name_str raw
    else if v = "fullpath".data ∨ v = "path".data then rec_full_path raw
    else if v = "directory".data ∨ v = "folder".data then rec_directory raw
    else if v = "keywords".data then List.intercalate " ".data (rec_keywords raw)
    else rec_file_name_str raw

/-! ## Triggers -/

inductive Trigger where
  | regex (score : Int) (target : Str) (pattern : Str)
  | keyword (score : Int) (values : List Str)
  | extension (score : Int) (values : List Str)
deriving DecidableEq

def Trigger.score : Trigger → Int
  | .regex s _ _ => s
  | .keyword s _ => s
  | .extension s _ => s

/-- `Trigger.matches` (lines 102-110); `rsearch` abstracts
`re.search(pattern, text, re.IGNORECASE)`. -/
def Trigger.matchesRec (rsearch : Str → Str → Bool) (t : Trigger) (raw : Dict) : Bool :=
  match t with
  | .regex _ target pat =>
    let v := get_text_for_target raw target
    !v.isEmpty && rsearch pat v
  | .keyword _ vals => vals.any (fun v => (rec_keywords_lower raw).contains v)
  | .extension _ vals => vals.contains (rec_extension_lower raw)

/-- `Trigger.from_dict` (lines 70-100).  Regex-pattern compilation is kept
abstract (the pattern string is stored); `re.compile` of a non-string
raises `TypeError`, modelled here, while syntactically invalid patterns
(`re.error`) are outside the model. -/
def triggerTypeOf (p : Dict) : Str :=
  lowerStr (trimStr (pyStr (dgetOr p "Type" (.scalar (.str [])))))

def from_dict (p : Dict) : Except PyErr Trigger :=
  let ttype := triggerTypeOf p
  match pyToInt (dgetOr p "Score" (.scalar (.int 0))) with
  | .error e => .error e
  | .ok score =>
    if score ≤ 0 then .error .valueError
    else
      let target := pyStr (dgetOr p "Target" (.scalar (.str "FileName".data)))
      if ttype = "regex".data then
        let ptext := dget p "Pattern"
        if !pyTruthy ptext then .error .valueError
        else
          match ptext with
          | .scalar (.str s) => .ok (.regex score target s)
          | _ => .error .typeError
      else if ttype = "keyword".data then
        match pyIter (dgetOr p "Values" (.list [])) with
        | .error e => .error e
        | .ok vs =>
          let values := vs.filterMap (fun v => match v with
            | PyScalar.null => none
            | v => some (lowerStr (pyStrS v)))
          if values.isEmpty then .error .valueError
          else .ok (.keyword score values)
      else if ttype = "extension".data then
        match pyIter (dgetOr p "Values" (.list [])) with
        | .error e => .error e
        | .ok vs =>
          let values := vs.filterMap (fun v => match v with
            | PyScalar.null => none
            | v =>
              let text := lowerStr (pyStrS v)
              some (if text.head? = some '.' then text else '.' :: text))
          if values.isEmpty then .error .valueError
          else .ok (.extension score values)
      else .error .valueError

/-- The per-category trigger loop of `load_config` (lines 363-368): a
`ValueError` from `Trigger.from_dict` is logged and the trigger skipped;
any other exception propagates and aborts the load. -/
def load_triggers (ps : List Dict) : Except PyErr (List Trigger) :=
  ps.foldlM (fun acc p =>
    match from_dict p with
    | .ok t => .ok (acc ++ [t])
    | .error PyErr.valueError => .ok acc
    | .error e => .error e) []

/-! ## Insights and scoring -/

structure Insights where
  persons : List Str
  festivals : List Str
  contextFlags : List Str
deriving DecidableEq

def PERSON_PATTERNS : List (Str × Str) :=
  [("\\bcaleb\\b".data, "Caleb_Stewart".data),
   ("\\brobyn\\b".data, "Robyn_Stewart".data),
   ("\\bhenry\\b".data, "Henry_Stewart".data),
   ("\\bjay\\b".data, "Jay_Ricks".data),
   ("\\bjock\\b".data, "Jock_Bethune".data),
   ("\\bbethune\\b".data, "Jock_Bethune".data),
   ("\\bstewart\\b".data, "Stewart_Family".data)]

def FESTIVAL_PATTERNS : List (Str × Str) :=
  [("all[ _-]*around".data, "All_Around_Film_Festival".data),
   ("sundance".data, "Sundance_Film_Festival".data),
   ("tribeca".data, "Tribeca_Film_Festival".data),
   ("outfest".data, "Outfest".data),
   ("slamdance".data, "Slamdance".data)]

def CONTEXT_PATTERNS : List (Str × List Str) :=
  [("production_meta".data,
    ["behind[ _-]*the[ _-]*scenes".data, "\\bproduction\\b".data,
     "\\bworkflow\\b".data, "film[ _-]*journey".data]),
   ("subject_research".data,
    ["\\bhistory\\b".data, "\\bresearch\\b".data, "\\bbackground\\b".data]),
   ("technical_interview".data,
    ["\\bmixdown\\b".data, "\\baudio\\b".data])]

/-- `FileRecord.prepare_insights` (lines 183-197); sets are modelled as
lists (only membership and emptiness are observed downstream). -/
def prepare_insights (rsearch : Str → Str → Bool) (raw : Dict) : Insights :=
  let text := extra_text raw
  let persons := PERSON_PATTERNS.filterMap
    (fun pl => if rsearch pl.1 text then some pl.2 else none)
  let festivals0 := FESTIVAL_PATTERNS.filterMap
    (fun pl => if rsearch pl.1 text then some pl.2 else none)
  let festivals :=
    if (rec_keywords_lower raw).contains "festival".data && festivals0.isEmpty
    then festivals0 ++ ["Festival".data] else festivals0
  let flags := CONTEXT_PATTERNS.filterMap
    (fun fp => if fp.2.any (fun p => rsearch p text) then some fp.1 else none)
  ⟨persons, festivals, flags⟩

def bumpScore (name : Str) (f : Str → Int) : Str → Int :=
  fun n => if n = name then f n + 1 else f n

def bumpIf (cond : Bool) (name : Str) (priority : List Str) (f : Str → Int) : Str → Int :=
  if cond && priority.contains name then bumpScore name f else f

/-- `apply_insight_adjustments` (lines 225-253): each heuristic bonus adds
1 to a named category, provided that category is a key of the score map
(i.e. appears in the priority list). -/
def apply_insight_adjustments (ins : Insights) (priority : List Str)
    (scores : Str → Int) : Str → Int :=
  let s := bumpIf (!ins.festivals.isEmpty) "Interview_Transcripts".data priority scores
  let s := bumpIf (!ins.festivals.isEmpty) "Strategy_Documents".data priority s
  let s := bumpIf (ins.contextFlags.contains "production_meta".data)
    "Production_Documents".data priority s
  let s := bumpIf (ins.contextFlags.contains "subject_research".data)
    "Data_Reports".data priority s
  let s := bumpIf (ins.contextFlags.contains "technical_interview".data)
    "Interview_Transcripts".data priority s
  s

/-- The trigger-accumulation loop of `Classifier.classify` (lines 286-295):
per-category sums of the scores of matching triggers, keys = priority. -/
def rawScores (rsearch : Str → Str → Bool) (configs : List (Str × List Trigger))
    (priority : List Str) (raw : Dict) : Str → Int :=
  fun n =>
    if priority.contains n then
      match configs.find? (fun c => decide (c.1 = n)) with
      | some c => c.2.foldl (fun a t => if t.matchesRec rsearch raw then a + t.score else a) 0
      | none => 0
    else 0

def classifyScores (rsearch : Str → Str → Bool) (configs : List (Str × List Trigger))
    (priority : List Str) (raw : Dict) : Str → Int :=
  apply_insight_adjustments (prepare_insights rsearch raw) priority
    (rawScores rsearch configs priority raw)

/-- `choose_best_category` (lines 256-264). -/
def choose_best_category (scores : Str → Int) (priority : List Str) : Str × Int :=
  priority.foldl (fun best n => if scores n > best.2 then (n, scores n) else best)
    ("Unknown".data, -1)

/-- Lines 297-300 of `Classifier.classify`: a best score ≤ 0 is forced to
`("Unknown", 0)`. -/
def resolveRecord (scores : Str → Int) (priority : List Str) : Str × Int :=
  let bc := choose_best_category scores priority
  if bc.2 ≤ 0 then ("Unknown".data, 0) else bc

/-! ## The classify batch loop (`Classifier.classify`, lines 279-312)

The per-record body of the `try` block is abstracted as
`process : α → Except Unit (Str × Int)` (record ↦ winning category and
score, or the exception the `except` arm catches); the fold mirrors the
bucket/setdefault/append and error-counter logic exactly. -/

def bucketGet (bs : List (Str × List α)) (k : Str) : List α :=
  match bs.find? (fun b => decide (b.1 = k)) with
  | some b => b.2
  | none => []

def bucketAdd : List (Str × List α) → Str → α → List (Str × List α)
  | [], k, v => [(k, [v])]
  | b :: bs, k, v =>
    if b.1 = k then (b.1, b.2 ++ [v]) :: bs else b :: bucketAdd bs k v

def initBuckets (priority : List Str) : List (Str × List α) :=
  if ((priority.map (fun n => (n, ([] : List α)))).find?
      (fun b => decide (b.1 = "Unknown".data))).isSome then
    priority.map (fun n => (n, []))
  else priority.map (fun n => (n, [])) ++ [("Unknown".data, [])]

def classifyStep (process : α → Except Unit (Str × Int))
    (acc : List (Str × List (α × Str × Int)) × Nat) (r : α) :
    List (Str × List (α × Str × Int)) × Nat :=
  match process r with
  | .ok cs => (bucketAdd acc.1 cs.1 (r, cs.1, cs.2), acc.2)
  | .error _ => (bucketAdd acc.1 "Unknown".data (r, "Unknown".data, 0), acc.2 + 1)

def classifyBatch (process : α → Except Unit (Str × Int)) (priority : List Str)
    (records : List α) : List (Str × List (α × Str × Int)) × Nat :=
  records.foldl (classifyStep process) (initBuckets priority, 0)

/-! ## `design_naming_conventions.py` -/

/-- `normalize_extension` (lines 67-74).  A truthy non-string raises
`AttributeError` in Python (no valid config triggers it); that branch is
modelled as the empty extension. -/
def normalize_extension (value : PyVal) : Str :=
  if !pyTruthy value then []
  else
    match value with
    | .scalar (.str s) =>
      let c := lowerStr (trimStr s)
      if c.head? = some '.' then c else '.' :: c
    | _ => []

/-- `normalize_keywords` (lines 77-78); iterating a non-iterable raises in
Python (caught by the per-record handler), modelled as the empty list. -/
def normalize_keywords (values : PyVal) : List Str :=
  match pyIter values with
  | .ok items => items.filterMap (fun v => match v with
      | PyScalar.null => none
      | v => some (lowerStr (pyStrS v)))
  | .error _ => []

/-- The `context` dict produced by `build_context` (lines 158-166). -/
structure Ctx where
  file_name : Str
  full_path : Str
  extension : Str
  keywords : List Str
deriving DecidableEq

def build_context (e : Dict) : Ctx :=
  { file_name := pyStr (dgetOr e "FileName" (.scalar (.str [])))
    full_path :=
      if pyTruthy (dget e "FullPath") then pyStr (dgetOr e "FullPath" (.scalar (.str [])))
      else []
    extension := normalize_extension (dget e "Extension")
    keywords := normalize_keywords (dgetOr e "Keywords" (.list [])) }

/-- The `required`/`normalized` computation of `evaluate_condition`'s
`keywords` branch (lines 91-95): a list iterates, anything else is
wrapped, `None` entries are dropped, the rest lower-cased. -/
def keywordsNormalized (expected : PyVal) : List Str :=
  (match expected with
   | PyVal.list xs => xs
   | PyVal.scalar v => [v]).filterMap (fun v => match v with
    | PyScalar.null => none
    | v => some (lowerStr (pyStrS v)))

/-- `evaluate_condition` (lines 81-104): only the keys `filename`,
`fullpath`, `keywords`, `extension` (case-insensitive) are supported; any
other key logs a warning and returns `False`. -/
def evaluate_condition (rsearch : Str → Str → Bool) (key : Str) (expected : PyVal)
    (ctx : Ctx) : Bool :=
  if lowerStr key = "filename".data then rsearch (pyStr expected) ctx.file_name
  else if lowerStr key = "fullpath".data then
    if ctx.full_path.isEmpty then false else rsearch (pyStr expected) ctx.full_path
  else if lowerStr key = "keywords".data then
    if (keywordsNormalized expected).isEmpty then true
    else (keywordsNormalized expected).all (fun k => ctx.keywords.contains k)
  else if lowerStr key = "extension".data then
    decide (ctx.extension = normalize_extension expected)
  else false

/-- Modelled from the spec (claim C6): condition evaluation reusing the
trigger-side field-alias table of `FileRecord.get_text_for_target`
(`filename`/`name`, `fullpath`/`path`, `directory`/`folder`, `keywords`,
unknown keys falling back to the file name), with regex conditions
evaluated as case-insensitive substring search.  This is what the claim
asserts `evaluate_condition` does; the code does something else. -/
def evaluate_condition_aliased (rsearch : Str → Str → Bool) (key : Str)
    (expected : PyVal) (ctx : Ctx) (directory : Str) : Bool :=
  let v := lowerStr key
  let text :=
    if v = "filename".data ∨ v = "name".data then ctx.file_name
    else if v = "fullpath".data ∨ v = "path".data then ctx.full_path
    else if v = "directory".data ∨ v = "folder".data then directory
    else if v = "keywords".data then List.intercalate " ".data ctx.keywords
    else ctx.file_name
  rsearch (pyStr expected) text

/-- One entry of a category's `Rules` list (its `Condition` and `Mapping`
dicts; an absent/null condition is the empty dict). -/
structure NamingRule where
  condition : Dict
  mapping : Dict
deriving DecidableEq

structure CategoryNamingConfig where
  pattern : Str
  rules : List NamingRule
  defaultMapping : Dict
deriving DecidableEq

def ruleMatches (rsearch : Str → Str → Bool) (r : NamingRule) (ctx : Ctx) : Bool :=
  r.condition.all (fun kv => evaluate_condition rsearch kv.1 kv.2 ctx)

/-- `apply_rules` (lines 113-121): first rule whose conditions all hold
wins, else the category's `DefaultMapping` (deep copies are identities in
a pure model). -/
def apply_rules (rsearch : Str → Str → Bool) (cfg : CategoryNamingConfig)
    (ctx : Ctx) : Dict :=
  match cfg.rules.find? (fun r => ruleMatches rsearch r ctx) with
  | some r => r.mapping
  | none => cfg.defaultMapping

/-! ### Dates -/

structure PyDateTime where
  year : Nat
  month : Nat
  day : Nat
  hour : Nat := 0
  minute : Nat := 0
  second : Nat := 0
deriving DecidableEq

def natOfDigits (l : Str) : Nat := l.foldl (fun a c => 10 * a + (c.toNat - 48)) 0

def isLeap (y : Nat) : Bool := (y % 4 = 0 && y % 100 ≠ 0) || y % 400 = 0

def daysInMonth (y m : Nat) : Nat :=
  if m = 2 then (if isLeap y then 29 else 28)
  else if m = 4 ∨ m = 6 ∨ m = 9 ∨ m = 11 then 30
  else 31

def validDate (y m d : Nat) : Bool :=
  1 ≤ y && y ≤ 9999 && 1 ≤ m && m ≤ 12 && 1 ≤ d && d ≤ daysInMonth y m

def mkDT (y mo d h mi s : Nat) : Option PyDateTime :=
  if validDate y mo d && h ≤ 23 && mi ≤ 59 && s ≤ 59 then some ⟨y, mo, d, h, mi, s⟩
  else none

def takeDigits (n : Nat) (s : Str) : Option (Str × Str) :=
  if (s.take n).length = n && (s.take n).all Char.isDigit then some (s.take n, s.drop n)
  else none

/-- First alternative of `DATE_TOKEN_PATTERN`: eight consecutive digits,
grouped 4-2-2. -/
def dateAlt1? (s : Str) : Option (Str × Str × Str) :=
  match takeDigits 4 s with
  | some (y, r1) =>
    match takeDigits 2 r1 with
    | some (m, r2) =>
      match takeDigits 2 r2 with
      | some (d, _) => some (y, m, d)
      | none => none
    | none => none
  | none => none

def isDateSep (c : Char) : Bool := c = '-' || c = '_'

/-- Second alternative: four digits, `-`/`_` separator, two digits,
separator, two digits. -/
def dateAlt2? (s : Str) : Option (Str × Str × Str) :=
  match takeDigits 4 s with
  | some (y, r1) =>
    match r1 with
    | c1 :: r2 =>
      if isDateSep c1 then
        match takeDigits 2 r2 with
        | some (m, r3) =>
          match r3 with
          | c2 :: r4 =>
            if isDateSep c2 then (takeDigits 2 r4).map (fun p => (y, m, p.1))
            else none
          | [] => none
        | none => none
      else none
    | [] => none
  | none => none

/-- `DATE_TOKEN_PATTERN.search`: leftmost position at which either
alternative matches (the contiguous alternative preferred at equal
positions, as in the regex). -/
def dateSearch : Str → Option (Str × Str × Str)
  | [] => none
  | c :: rest =>
    match dateAlt1? (c :: rest) with
    | some g => some g
    | none =>
      match dateAlt2? (c :: rest) with
      | some g => some g
      | none => dateSearch rest

def parseYMD (y m d : Str) : Option PyDateTime :=
  mkDT (natOfDigits y) (natOfDigits m) (natOfDigits d) 0 0 0

def splitDigitRun (s : Str) : Str × Str := (s.takeWhile Char.isDigit, s.dropWhile Char.isDigit)

/-- `strptime`-style `%Y-%m-%d` date part: a 1-4 digit year and 1-2 digit
month/day separated by hyphens; returns the parsed fields and remainder. -/
def parseDatePart (s : Str) : Option (Nat × Nat × Nat × Str) :=
  let (ys, r1) := splitDigitRun s
  if ys.isEmpty || 4 < ys.length then none
  else
    match r1 with
    | '-' :: r2 =>
      let (ms, r3) := splitDigitRun r2
      if ms.isEmpty || 2 < ms.length then none
      else
        match r3 with
        | '-' :: r4 =>
          let (ds, r5) := splitDigitRun r4
          if ds.isEmpty || 2 < ds.length then none
          else some (natOfDigits ys, natOfDigits ms, natOfDigits ds, r5)
        | _ => none
    | _ => none

/-- `%H:%M:%S` after a given separator character. -/
def parseTimePart (sep : Char) (s : Str) : Option (Nat × Nat × Nat × Str) :=
  match s with
  | c :: r0 =>
    if c = sep then
      let (hs, r1) := splitDigitRun r0
      if hs.isEmpty || 2 < hs.length then none
      else
        match r1 with
        | ':' :: r2 =>
          let (ms, r3) := splitDigitRun r2
          if ms.isEmpty || 2 < ms.length then none
          else
            match r3 with
            | ':' :: r4 =>
              let (ss, r5) := splitDigitRun r4
              if ss.isEmpty || 2 < ss.length then none
              else some (natOfDigits hs, natOfDigits ms, natOfDigits ss, r5)
            | _ => none
        | _ => none
    else none
  | [] => none

/-- A `%z` timezone suffix: `Z`, `±HHMM` or `±HH:MM` (finer `%z` forms are
outside the model). -/
def isTzSuffix (s : Str) : Bool :=
  if s = ['Z'] then true
  else
    match s with
    | c :: r =>
      (c = '+' || c = '-') &&
        ((r.length = 4 && r.all Char.isDigit) ||
         (r.length = 5 && r.get? 2 = some ':' && (r.take 2 ++ r.drop 3).all Char.isDigit))
    | [] => false

def parseFmtDateTime (sep : Char) (tz : Bool) (s : Str) : Option PyDateTime :=
  match parseDatePart s with
  | some (y, mo, d, r1) =>
    match parseTimePart sep r1 with
    | some (h, mi, sec, r2) =>
      if tz then (if isTzSuffix r2 && !r2.isEmpty then mkDT y mo d h mi sec else none)
      else (if r2.isEmpty then mkDT y mo d h mi sec else none)
    | none => none
  | none => none

def parseFmtDate (s : Str) : Option PyDateTime :=
  match parseDatePart s with
  | some (y, mo, d, r1) => if r1.isEmpty then mkDT y mo d 0 0 0 else none
  | none => none

/-- `datetime.fromisoformat`, approximated: date, optional `T`/space time,
optional fractional seconds, optional timezone. -/
def parseIso (s : Str) : Option PyDateTime :=
  match parseDatePart s with
  | some (y, mo, d, r1) =>
    if r1.isEmpty then mkDT y mo d 0 0 0
    else
      match parseTimePart 'T' r1 with
      | some (h, mi, sec, r2) => parseIsoTail y mo d h mi sec r2
      | none =>
        match parseTimePart ' ' r1 with
        | some (h, mi, sec, r2) => parseIsoTail y mo d h mi sec r2
        | none => none
  | none => none
where
  parseIsoTail (y mo d h mi sec : Nat) (r : Str) : Option PyDateTime :=
    let r' := match r with
      | '.' :: r2 =>
        let (fs, r3) := splitDigitRun r2
        if fs.isEmpty then '.' :: r2 else r3
      | r2 => r2
    if r'.isEmpty || isTzSuffix r' then mkDT y mo d h mi sec else none

/-- The modification-value fallback of `derive_date` (lines 136-145):
fixed `strptime` formats in order, then a generic ISO parse. -/
def parseModified (s : Str) : Option PyDateTime :=
  match parseFmtDateTime 'T' true s with
  | some dt => some dt
  | none =>
    match parseFmtDateTime 'T' false s with
    | some dt => some dt
    | none =>
      match parseFmtDateTime ' ' false s with
      | some dt => some dt
      | none =>
        match parseFmtDate s with
        | some dt => some dt
        | none => parseIso s

/-- `derive_date` (lines 124-146). `nowD` stands for `datetime.now()`. -/
def derive_date (nowD : PyDateTime) (file_name : Str) (modified : PyVal) : PyDateTime :=
  let fallback :=
    if pyTruthy modified then
      match parseModified (pyStr modified) with
      | some dt => dt
      | none => nowD
    else nowD
  match dateSearch file_name with
  | some (y, m, d) =>
    match parseYMD y m d with
    | some dt => dt
    | none => fallback
  | none => fallback

def DATE_FORMAT_REPLACEMENTS : List (Str × Str) :=
  [("yyyy".data, "%Y".data), ("yyy".data, "%Y".data), ("yy".data, "%y".data),
   ("MM".data, "%m".data), ("dd".data, "%d".data), ("HH".data, "%H".data),
   ("hh".data, "%I".data), ("mm".data, "%M".data), ("ss".data, "%S".data)]

/-- `translate_date_format` (lines 60-64): sequential replacement in the
table's insertion order. -/
def translate_date_format (f : Str) : Str :=
  DATE_FORMAT_REPLACEMENTS.foldl (fun acc p => replaceAll p.1 p.2 acc) f

def padNum (w : Nat) (n : Nat) : Str :=
  let d := (Nat.repr n).data
  List.replicate (w - d.length) '0' ++ d

/-- `datetime.strftime` for the directive set reachable through
`DATE_FORMAT_REPLACEMENTS`; unknown directives pass through. -/
def strftime (d : PyDateTime) : Str → Str
  | [] => []
  | '%' :: c :: rest =>
    (match c with
     | 'Y' => padNum 4 d.year
     | 'y' => padNum 2 (d.year % 100)
     | 'm' => padNum 2 d.month
     | 'd' => padNum 2 d.day
     | 'H' => padNum 2 d.hour
     | 'I' => padNum 2 ((d.hour + 11) % 12 + 1)
     | 'M' => padNum 2 d.minute
     | 'S' => padNum 2 d.second
     | c => ['%', c]) ++ strftime d rest
  | c :: rest => c :: strftime d rest

/-! ### Placeholder substitution -/

/-- `text = "" if value is None else str(value)` (line 153). -/
def mappingText (v : PyVal) : Str :=
  if v = PyVal.scalar PyScalar.null then [] else pyStr v

/-- The replacement a mapping value contributes: its text, or `"Unknown"`
when that text is empty (line 154). -/
def mappingRepl (v : PyVal) : Str :=
  if (mappingText v).isEmpty then unknownStr else mappingText v

/-- `replace_placeholders` (lines 149-155): replace each mapping token
(`None` → empty, empty → `"Unknown"`), then scrub remaining nonempty
brace tokens to `"Unknown"`. -/
def replace_placeholders (pattern : Str) (mapping : Dict) : Str :=
  subTokens (mapping.foldl
    (fun acc kv => replaceAll ('{' :: kv.1 ++ ['}']) (mappingRepl kv.2) acc) pattern)

/-- The per-file body of `process_classification` (lines 267-295), up to
the produced `NewFileName`.  `dateFormat` is the already-translated
format; `nowD` injects the clock. -/
def process_entry (rsearch : Str → Str → Bool) (nowD : PyDateTime)
    (cfg : CategoryNamingConfig) (dateFormat : Str) (entry : Dict) : Str :=
  let ctx := build_context entry
  let mapping := apply_rules rsearch cfg ctx
  let mapping :=
    if occursB "{Date}".data cfg.pattern && !hasKey mapping "Date" then
      mapping ++ [("Date".data, PyVal.scalar (.str
        (strftime (derive_date nowD ctx.file_name (dget entry "Modified")) dateFormat)))]
    else mapping
  let mapping :=
    if occursB "{ext}".data cfg.pattern && !hasKey mapping "ext" then
      mapping ++ [("ext".data, PyVal.scalar (.str ctx.extension))]
    else mapping
  let mapping :=
    if occursB "{Rank}".data cfg.pattern && !hasKey mapping "Rank" then
      mapping ++ [("Rank".data, PyVal.scalar (.str (pyStr (dgetOr entry "Rank" (.scalar (.str []))))))]
    else mapping
  replace_placeholders cfg.pattern mapping

/-! ### Conflict resolution (`handle_conflicts`, lines 186-218) -/

/-- One rename-mapping entry, restricted to the fields `handle_conflicts`
reads and writes: destination path and file name, plus the originating
record's inventory `Score` (sort key, default 0) and `Rank` (suffix
source, default the string `"?"`). -/
structure RenameEntry where
  newPath : Str
  newFileName : Str
  score : Int
  rank : PyVal
deriving DecidableEq

/-- `PurePath(name).suffix`: the final dot-suffix, empty for a leading or
trailing dot or no dot at all. -/
def pySuffix (name : Str) : Str :=
  if ((name.reverse.takeWhile (fun c => c ≠ '.')).reverse).length = name.length then []
  else if ((name.reverse.takeWhile (fun c => c ≠ '.')).reverse).length = 0 then []
  else if ((name.reverse.takeWhile (fun c => c ≠ '.')).reverse).length + 1 = name.length
    then []
  else '.' :: (name.reverse.takeWhile (fun c => c ≠ '.')).reverse

def pyStem (name : Str) : Str := name.take (name.length - (pySuffix name).length)

/-- `PurePosixPath(p).parent` for a normalized path string. -/
def pathParent (p : Str) : Str :=
  let after := p.reverse.takeWhile (fun c => c ≠ '/')
  if after.length = p.length then ['.']
  else
    let pre := (p.reverse.drop (after.length + 1)).reverse
    if pre.isEmpty then ['/'] else pre

/-- `str(PurePosixPath(dir) / name)` for a normalized `dir`. -/
def pathJoin (dir name : Str) : Str :=
  if dir = ['.'] then name
  else if dir = ['/'] then '/' :: name
  else dir ++ '/' :: name

/-- Stable insertion keeping earlier-listed entries ahead of later ones of
equal score (Python `list.sort(key=..., reverse=True)` is stable). -/
def insertByScore (e : RenameEntry) : List RenameEntry → List RenameEntry
  | [] => [e]
  | y :: ys => if y.score ≤ e.score then e :: y :: ys else y :: insertByScore e ys

def sortByScoreDesc : List RenameEntry → List RenameEntry
  | [] => []
  | x :: xs => insertByScore x (sortByScoreDesc xs)

/-- The per-entry rewrite at 0-based sorted position `index ≥ 1` (lines
203-215): `AddVersion` appends `_v{index+1}` to the stem, `AppendRank`
appends `_rank{rank}`, any other strategy leaves the entry unchanged. -/
def rewriteEntry (strategy : Str) (index : Nat) (e : RenameEntry) : RenameEntry :=
  let extension := pySuffix e.newFileName
  let stem := pyStem e.newFileName
  if strategy = "AddVersion".data then
    let nm := stem ++ "_v".data ++ (Nat.repr (index + 1)).data ++ extension
    { e with newFileName := nm, newPath := pathJoin (pathParent e.newPath) nm }
  else if strategy = "AppendRank".data then
    let nm := stem ++ "_rank".data ++ pyStr e.rank ++ extension
    { e with newFileName := nm, newPath := pathJoin (pathParent e.newPath) nm }
  else e

def rewriteTail (strategy : Str) : Nat → List RenameEntry → List RenameEntry
  | _, [] => []
  | i, e :: es => rewriteEntry strategy i e :: rewriteTail strategy (i + 1) es

/-- Resolution of one conflict group: sort by score descending (stable),
keep the top entry, rewrite the others by sorted position. -/
def resolveGroup (strategy : Str) (items : List RenameEntry) : List RenameEntry :=
  match sortByScoreDesc items with
  | [] => []
  | top :: rest => top :: rewriteTail strategy 1 rest

/-- `defaultdict(list)` grouping by `NewPath` in first-seen key order. -/
def groupPaths (l : List RenameEntry) : List (Str × List RenameEntry) :=
  l.foldl (fun gs e => bucketAdd gs e.newPath e) []

/-- `handle_conflicts` (lines 186-218).  The Python function mutates the
grouped entries in place and returns the number of conflicting groups;
here the post-state is returned as the entries grouped by their original
destination path (the multiset of entries, which is what the conflict
claims observe) together with that count. -/
def handle_conflicts (mappings : List RenameEntry) (strategy : Str) :
    List RenameEntry × Nat :=
  let groups := groupPaths mappings
  ((groups.map (fun g => if 1 < g.2.length then resolveGroup strategy g.2 else g.2)).flatten,
   (groups.filter (fun g => 1 < g.2.length)).length)

/-- `re.search(pattern, text, re.IGNORECASE)` for metacharacter-free
patterns, optionally carrying a literal `(?i)` flag: case-insensitive
substring search.  Used to instantiate the `rsearch` oracle on concrete
inputs. -/
def litSearch (pat text : Str) : Bool :=
  let p := if "(?i)".data.isPrefixOf pat then pat.drop 4 else pat
  occursB (lowerStr p) (lowerStr text)

/-! ## Auxiliary notions used by the claim statements -/

/-- Does `s` contain a complete brace token with a nonempty body (a match
of `re` pattern `\x7b[^\x7d]+\x7d`)? -/
def hasTok : Str → Bool
  | [] => false
  | c :: rest =>
    (if c = '{' then
      match splitClose? rest with
      | some (gap, _) => !gap.isEmpty
      | none => false
     else false) || hasTok rest

/-- No brace character at all. -/
def noBrace (s : Str) : Bool := s.all (fun c => c ≠ '{' && c ≠ '}')

/-- A well-formed filename pattern, viewed as alternating literal text and
`\x7bname\x7d` tokens. -/
inductive Seg where
  | lit (s : Str)
  | tok (name : Str)
deriving DecidableEq

def renderSeg : Seg → Str
  | .lit s => s
  | .tok n => '{' :: n ++ ['}']

def renderTemplate (segs : List Seg) : Str := (segs.map renderSeg).flatten

/-- Well-formedness: literal parts carry no braces; token names are
nonempty and brace-free. -/
def wfSeg : Seg → Bool
  | .lit s => noBrace s
  | .tok n => !n.isEmpty && noBrace n

/-- What one `\x7bname\x7d` token resolves to under a mapping: the first
binding's replacement, or `"Unknown"` when the token is unbound. -/
def resolveTok (mapping : Dict) (n : Str) : Str :=
  match mapping.find? (fun kv => decide (kv.1 = n)) with
  | some kv => mappingRepl kv.2
  | none => unknownStr

/-- The fully substituted rendering of a template under a mapping. -/
def renderResolved (mapping : Dict) (segs : List Seg) : Str :=
  (segs.map (fun seg => match seg with
    | Seg.lit s => s
    | Seg.tok n => resolveTok mapping n)).flatten

/-- Substitute one mapping binding into a template (what one
`str.replace` pass does to a well-formed pattern). -/
def substOne (k : Str) (repl : Str) (segs : List Seg) : List Seg :=
  segs.map (fun seg => match seg with
    | Seg.tok n => if n = k then Seg.lit repl else Seg.tok n
    | s => s)

/-- Substitute the mapping bindings in sequence. -/
def substAll (mapping : Dict) (segs : List Seg) : List Seg :=
  mapping.foldl (fun acc kv => substOne kv.1 (mappingRepl kv.2) acc) segs

/-- A naming rule that `evaluate_condition` satisfies vacuously: every
condition entry is (case-insensitively) a `keywords` condition whose
normalized value list is empty; in particular a rule with an empty
condition dict. -/
def isVacuousRule (r : NamingRule) : Bool :=
  r.condition.all (fun kv =>
    decide (lowerStr kv.1 = "keywords".data) && (keywordsNormalized kv.2).isEmpty)

def exceptErr {ε β : Type} : Except ε β → Bool
  | .error _ => true
  | .ok _ => false

def sumLens (bs : List (Str × List α)) : Nat := (bs.map (fun b => b.2.length)).sum

/-- Decimal digits of `n`, most significant first (the reference rendering
`Nat.repr` is proved equal to). -/
def decChars (n : Nat) : List Char :=
  if h : n < 10 then [Nat.digitChar n]
  else decChars (n / 10) ++ [Nat.digitChar (n % 10)]
termination_by n
decreasing_by
  exact Nat.div_lt_self (by omega) (by omega)

def decVal (l : List Char) : Nat := l.foldl (fun a c => 10 * a + (c.toNat - 48)) 0

/-! ## Concrete inputs for counterexamples and witnesses -/

/-- Scenario C's classified file entry (cf. the repository's own test
`tests/test_design_naming_conventions.py`). -/
def c5Entry : Dict :=
  [("FileName".data, .scalar (.str "stats_report_20240101.csv".data)),
   ("FullPath".data, .scalar (.str "C:/reports/stats_report_20240101.csv".data)),
   ("Extension".data, .scalar (.str ".csv".data)),
   ("Modified".data, .scalar (.str "2024-01-05T00:00:00".data)),
   ("Keywords".data, .list [.str "stats".data]),
   ("Rank".data, .scalar (.int 4)),
   ("Score".data, .scalar (.int 88))]

/-- Scenario C's `Data_Reports` naming category. -/
def c5Cfg : CategoryNamingConfig :=
  { pattern := "GW_Report_{Type}_{Date}.{ext}".data
    rules := [{ condition := [("FileName".data, .scalar (.str "(?i)stats".data))]
                mapping := [("Type".data, .scalar (.str "Statistics".data))] }]
    defaultMapping := [("Type".data, .scalar (.str "Analysis".data))] }

/-- A fixed stand-in clock, far from the scenario dates. -/
def fixedNow : PyDateTime := ⟨2030, 6, 15, 0, 0, 0⟩

/-- Scenario D's two rename-mapping entries (`page_a.html`, score 90, and
`page_b.html`, score 70, both mapping to `GW_Web_Page.html`). -/
def scenDA : RenameEntry :=
  ⟨"d/GW_Web_Page.html".data, "GW_Web_Page.html".data, 90, .scalar (.int 1)⟩

def scenDB : RenameEntry :=
  ⟨"d/GW_Web_Page.html".data, "GW_Web_Page.html".data, 70, .scalar (.int 2)⟩

/-- Three entries sharing a destination, the lower-scored two sharing rank 1. -/
def c1X : RenameEntry := ⟨"d/a.txt".data, "a.txt".data, 9, .scalar (.int 5)⟩

def c1Y : RenameEntry := ⟨"d/a.txt".data, "a.txt".data, 5, .scalar (.int 1)⟩

def c1Z : RenameEntry := ⟨"d/a.txt".data, "a.txt".data, 3, .scalar (.int 1)⟩

/-- A context whose file name is `abc.txt` (used against the `name` alias). -/
def c6Ctx : Ctx := ⟨"abc.txt".data, "C:/x/abc.txt".data, ".txt".data, ["stats".data]⟩

/-- A rule conditioned on the file name containing `a`. -/
def c9R1 : NamingRule :=
  ⟨[("filename".data, .scalar (.str "a".data))], [("Type".data, .scalar (.str "M1".data))]⟩

/-- A rule with an empty condition dict (vacuously satisfied). -/
def c9R2 : NamingRule := ⟨[], [("Type".data, .scalar (.str "M2".data))]⟩

def c9Dflt : Dict := [("Type".data, .scalar (.str "D".data))]

def c9Cfg : CategoryNamingConfig := ⟨"p{Type}".data, [c9R1, c9R2], c9Dflt⟩

/-- A context matching `c9R1` (file name contains `a`). -/
def c9CtxA : Ctx := ⟨"abc.txt".data, [], [], []⟩

/-- A context matching no condition of `c9R1` (file name `zzz.txt`). -/
def c9CtxZ : Ctx := ⟨"zzz.txt".data, [], [], []⟩

/-- A trigger payload whose `Score` is JSON `null`: `int(None)` raises
`TypeError`, which `load_config` does not catch. -/
def c8Bad : Dict :=
  [("Type".data, .scalar (.str "Regex".data)),
   ("Pattern".data, .scalar (.str "x".data)),
   ("Score".data, .scalar .null)]

def c10Raw : Dict := [("Rank".data, .scalar (.int 0))]

def c10RawW : Dict := [("rank".data, .scalar (.int 7)), ("Rank".data, .scalar (.int 3))]

/-! ## Helper lemmas -/

theorem rewriteTail_getElem? (strategy : Str) :
    ∀ (l : List RenameEntry) (i j : Nat),
      (rewriteTail strategy i l)[j]? = l[j]?.map (fun e => rewriteEntry strategy (i + j) e) := by
  intro l
  induction l with
  | nil => intro i j; simp [rewriteTail]
  | cons e es ih =>
    intro i j
    cases j with
    | zero => simp [rewriteTail]
    | succ j =>
      simp only [rewriteTail, List.getElem?_cons_succ, ih (i + 1) j]
      rw [show i + 1 + j = i + (j + 1) by omega]

/-! ## Claim C5 -/

/-- C5: Scenario C evaluated on the code.  The date is indeed taken from
the filename's embedded `20240101` token (second conjunct), but the
generated file name is `GW_Report_Statistics_2024-01-01..csv` — a double
dot — because `normalize_extension` keeps the leading dot, so `\x7bext\x7d`
substitutes `.csv` after the pattern's literal dot.  The claim (and the
repository's own test `tests/test_design_naming_conventions.py:54`)
expects `GW_Report_Statistics_2024-01-01.csv`; the code contradicts its
own test, a code bug. -/
theorem c5_scenarioC_double_dot :
    process_entry litSearch fixedNow c5Cfg (translate_date_format "yyyy-MM-dd".data) c5Entry
      = "GW_Report_Statistics_2024-01-01..csv".data ∧
    strftime (derive_date fixedNow "stats_report_20240101.csv".data (dget c5Entry "Modified"))
        (translate_date_format "yyyy-MM-dd".data)
      = "2024-01-01".data := by decide

/-! ## Claim C10 -/

/-- C10 counterexample: a record whose only binding is `"Rank": 0` gets
`rank = 0`, not `None` — Python `a or b` returns the final operand's
value even when it is falsy, so a falsy `Rank` is not "treated as
absent". (The claim's resolution order is also wrong for this field:
`rank`/`score` consult the snake_case key first, see the amended
theorem.) -/
theorem c10_counterexample :
    rec_rank c10Raw = PyVal.scalar (PyScalar.int 0) ∧
    PyVal.scalar (PyScalar.int 0) ≠ PyVal.scalar PyScalar.null := by decide

/-- C10 amended: `rank` and `score` resolve the snake_case key first and
fall back to the PascalCase key's value (whatever its truthiness);
`FileName`/`FullPath` resolve PascalCase first and fall back to the
snake_case value; only `Exists` is resolved by key presence. -/
theorem c10_truthiness_order (raw : Dict) :
    (pyTruthy (dget raw "rank") = true → rec_rank raw = dget raw "rank") ∧
    (pyTruthy (dget raw "rank") = false → rec_rank raw = dget raw "Rank") ∧
    (pyTruthy (dget raw "score") = true → rec_score raw = dget raw "score") ∧
    (pyTruthy (dget raw "score") = false → rec_score raw = dget raw "Score") ∧
    (pyTruthy (dget raw "FileName") = true → rec_file_name_pre raw = dget raw "FileName") ∧
    (pyTruthy (dget raw "FileName") = false → rec_file_name_pre raw = dget raw "filename") ∧
    (pyTruthy (dget raw "FullPath") = true → rec_full_path_raw raw = dget raw "FullPath") ∧
    (pyTruthy (dget raw "FullPath") = false → rec_full_path_raw raw = dget raw "full_path") ∧
    (hasKey raw "Exists" = true → rec_exists raw = pyTruthy (dget raw "Exists")) ∧
    (hasKey raw "Exists" = false → rec_exists raw = pyTruthy (dget raw "exists")) := by
  refine ⟨?_, ?_, ?_, ?_, ?_, ?_, ?_, ?_, ?_, ?_⟩ <;> intro h <;>
    simp [rec_rank, rec_score, rec_file_name_pre, rec_full_path_raw, rec_exists, pyOr, h]

/-- C10 witness: on a record with both `rank: 7` and `Rank: 3`, the
snake_case binding wins. -/
theorem c10_witness :
    pyTruthy (dget c10RawW "rank") = true ∧ rec_rank c10RawW = dget c10RawW "rank" :=
  ⟨by decide, (c10_truthiness_order c10RawW).1 (by decide)⟩

/-! ## Claim C4 -/

/-- C4: under `AddVersion` the top sorted entry is returned unchanged and
the entry at 0-based sorted position `j ≥ 1` (1-based position `j + 1 ≥ 2`)
gets `_v{j+1}` appended to its stem with the path recomputed in the same
parent; the returned conflict count is independent of the strategy and
equals the number of groups with more than one entry; Scenario D produces
`GW_Web_Page.html`, `GW_Web_Page_v2.html` and one reported conflict. -/
theorem c4_addversion_numbering :
    (∀ (items : List RenameEntry),
      (resolveGroup "AddVersion".data items)[0]? = (sortByScoreDesc items)[0]?) ∧
    (∀ (items : List RenameEntry) (j : Nat) (e : RenameEntry), 1 ≤ j →
      (sortByScoreDesc items)[j]? = some e →
      (resolveGroup "AddVersion".data items)[j]? = some
        { e with
          newFileName := pyStem e.newFileName ++ "_v".data ++ (Nat.repr (j + 1)).data
            ++ pySuffix e.newFileName
          newPath := pathJoin (pathParent e.newPath)
            (pyStem e.newFileName ++ "_v".data ++ (Nat.repr (j + 1)).data
              ++ pySuffix e.newFileName) }) ∧
    (∀ (mappings : List RenameEntry) (s1 s2 : Str),
      (handle_conflicts mappings s1).2 = (handle_conflicts mappings s2).2) ∧
    (∀ (mappings : List RenameEntry) (strategy : Str),
      (handle_conflicts mappings strategy).2
        = ((groupPaths mappings).filter (fun g => 1 < g.2.length)).length) ∧
    ((handle_conflicts [scenDA, scenDB] "AddVersion".data).1.map RenameEntry.newFileName
        = ["GW_Web_Page.html".data, "GW_Web_Page_v2.html".data] ∧
      (handle_conflicts [scenDA, scenDB] "AddVersion".data).2 = 1) := by
  refine ⟨?_, ?_, fun _ _ _ => rfl, fun _ _ => rfl, by decide⟩
  · intro items
    cases hs : sortByScoreDesc items with
    | nil => simp [resolveGroup, hs]
    | cons top rest => simp [resolveGroup, hs]
  · intro items j e hj he
    cases hs : sortByScoreDesc items with
    | nil => rw [hs] at he; simp at he
    | cons top rest =>
      rw [hs] at he
      cases j with
      | zero => omega
      | succ j =>
        simp only [List.getElem?_cons_succ] at he
        simp only [resolveGroup, hs, List.getElem?_cons_succ,
          rewriteTail_getElem? "AddVersion".data rest 1 j, he, Option.map_some']
        have harith : 1 + j + 1 = j + 1 + 1 := by omega
        rw [rewriteEntry, if_pos rfl, harith]

/-- C4 witness: the general numbering applied to Scenario D's group at
sorted position 1. -/
theorem c4_witness :
    (1 : Nat) ≤ 1 ∧ (sortByScoreDesc [scenDA, scenDB])[1]? = some scenDB ∧
    (resolveGroup "AddVersion".data [scenDA, scenDB])[1]? = some
      { scenDB with
        newFileName := pyStem scenDB.newFileName ++ "_v".data ++ (Nat.repr 2).data
          ++ pySuffix scenDB.newFileName
        newPath := pathJoin (pathParent scenDB.newPath)
          (pyStem scenDB.newFileName ++ "_v".data ++ (Nat.repr 2).data
            ++ pySuffix scenDB.newFileName) } :=
  ⟨le_refl 1, by decide,
    c4_addversion_numbering.2.1 [scenDA, scenDB] 1 scenDB (le_refl 1) (by decide)⟩

/-! ## Counterexamples for C1, C3, C6, C8, C9 -/

/-- C1 counterexample: three entries conflict on `d/a.txt` under
`AppendRank`; the two lower-scored entries share rank 1, so both resolve
to `d/a_rank1.txt` and the resolved entries do not have pairwise-distinct
destination paths. -/
theorem c1_counterexample :
    ¬ List.Nodup (((handle_conflicts [c1X, c1Y, c1Z] "AppendRank".data).1).map
        RenameEntry.newPath) := by decide

/-- C3 counterexample: the pattern `\x7b\x7d` survives substitution
untouched (the scrub regex requires a nonempty body), so the resulting
file name does contain literal brace syntax. -/
theorem c3_counterexample :
    replace_placeholders "{}".data [] = "{}".data ∧
    '{' ∈ replace_placeholders "{}".data [] := by decide

/-- C6 counterexample: the trigger-side alias `name` would match the file
name `abc.txt` against the pattern `abc`, but `evaluate_condition` does
not know that alias and returns `False`. -/
theorem c6_counterexample :
    evaluate_condition litSearch "name".data (.scalar (.str "abc".data)) c6Ctx = false ∧
    evaluate_condition_aliased litSearch "name".data (.scalar (.str "abc".data)) c6Ctx []
      = true := by decide

/-- C8 counterexample: a trigger payload with `Score: null` makes
`int(None)` raise `TypeError`, which the `except ValueError` in
`load_config` does not catch — the whole config load aborts instead of
skipping the single trigger. -/
theorem c8_counterexample :
    from_dict c8Bad = Except.error PyErr.typeError ∧
    load_triggers [c8Bad] = Except.error PyErr.typeError := by decide

/-- C9 counterexample: the first rule matches this context, so the
vacuous second rule is not selected even though it is the first vacuously
satisfiable rule — "always selected" fails. -/
theorem c9_counterexample :
    isVacuousRule c9R2 = true ∧ ruleMatches litSearch c9R1 c9CtxA = true ∧
    apply_rules litSearch c9Cfg c9CtxA = c9R1.mapping ∧ c9R1.mapping ≠ c9R2.mapping := by
  decide

/-! ## Claim C6 amended -/

/-- C6 amended: `evaluate_condition` does not share the trigger-side
alias table.  Its exact semantics per supported key, and `false` for
every unsupported key (including `name`, `path`, `directory`, `folder`). -/
theorem c6_condition_semantics_amended (rsearch : Str → Str → Bool) (key : Str)
    (expected : PyVal) (ctx : Ctx) :
    (lowerStr key = "filename".data →
      evaluate_condition rsearch key expected ctx = rsearch (pyStr expected) ctx.file_name) ∧
    (lowerStr key = "fullpath".data →
      evaluate_condition rsearch key expected ctx =
        (if ctx.full_path.isEmpty then false else rsearch (pyStr expected) ctx.full_path)) ∧
    (lowerStr key = "keywords".data →
      evaluate_condition rsearch key expected ctx =
        (if (keywordsNormalized expected).isEmpty then true
         else (keywordsNormalized expected).all (fun k => ctx.keywords.contains k))) ∧
    (lowerStr key = "extension".data →
      evaluate_condition rsearch key expected ctx =
        decide (ctx.extension = normalize_extension expected)) ∧
    (lowerStr key ∉ ["filename".data, "fullpath".data, "keywords".data, "extension".data] →
      evaluate_condition rsearch key expected ctx = false) := by
  refine ⟨?_, ?_, ?_, ?_, ?_⟩ <;> intro h
  · simp [evaluate_condition, h]
  · simp [evaluate_condition, h]
  · simp [evaluate_condition, h]
  · simp [evaluate_condition, h]
  · have h1 : lowerStr key ≠ "filename".data := fun he => h (by rw [he]; simp)
    have h2 : lowerStr key ≠ "fullpath".data := fun he => h (by rw [he]; simp)
    have h3 : lowerStr key ≠ "keywords".data := fun he => h (by rw [he]; simp)
    have h4 : lowerStr key ≠ "extension".data := fun he => h (by rw [he]; simp)
    simp only [evaluate_condition, if_neg h1, if_neg h2, if_neg h3, if_neg h4]

/-- C6 witness: the `FileName` key lower-cases to `filename` and evaluates
as the regex search the amended statement describes. -/
theorem c6_witness :
    lowerStr "FileName".data = "filename".data ∧
    evaluate_condition litSearch "FileName".data
        (PyVal.scalar (PyScalar.str "(?i)stats".data)) c6Ctx
      = litSearch (pyStr (PyVal.scalar (PyScalar.str "(?i)stats".data))) c6Ctx.file_name :=
  ⟨by decide,
    (c6_condition_semantics_amended litSearch "FileName".data
      (PyVal.scalar (PyScalar.str "(?i)stats".data)) c6Ctx).1 (by decide)⟩

/-! ## Claim C9 amended -/

theorem vacuous_rule_matches (rsearch : Str → Str → Bool) (r : NamingRule) (ctx : Ctx)
    (h : isVacuousRule r = true) : ruleMatches rsearch r ctx = true := by
  unfold ruleMatches
  unfold isVacuousRule at h
  rw [List.all_eq_true] at h ⊢
  intro kv hkv
  have hb := h kv hkv
  rw [Bool.and_eq_true] at hb
  obtain ⟨hk, hn⟩ := hb
  have hk' : lowerStr kv.1 = "keywords".data := of_decide_eq_true hk
  simp only [evaluate_condition, hk']
  simp [hn]

/-- C9 amended: a rule all of whose condition entries are empty-normalized
`keywords` conditions (in particular a rule with an empty condition dict)
is vacuously satisfied; when no earlier rule matches, `apply_rules`
selects the first such rule, independently of the later rules and of the
`DefaultMapping`. -/
theorem c9_vacuous_rule_amended (rsearch : Str → Str → Bool) (pre : List NamingRule)
    (r : NamingRule) (post : List NamingRule) (dflt : Dict) (pat : Str) (ctx : Ctx)
    (hvac : isVacuousRule r = true)
    (hpre : ∀ r' ∈ pre, ruleMatches rsearch r' ctx = false) :
    apply_rules rsearch ⟨pat, pre ++ r :: post, dflt⟩ ctx = r.mapping := by
  unfold apply_rules
  have hnone : pre.find? (fun r' => ruleMatches rsearch r' ctx) = none := by
    rw [List.find?_eq_none]
    intro x hx
    simp [hpre x hx]
  rw [show (⟨pat, pre ++ r :: post, dflt⟩ : CategoryNamingConfig).rules = pre ++ r :: post
    from rfl]
  rw [List.find?_append, hnone]
  rw [List.find?_cons]
  simp only [vacuous_rule_matches rsearch r ctx hvac, Option.none_or]

/-- C9 witness: with a non-matching earlier rule, the vacuous rule's
mapping is selected over later rules and the default. -/
theorem c9_witness :
    isVacuousRule c9R2 = true ∧
    (∀ r' ∈ [c9R1], ruleMatches litSearch r' c9CtxZ = false) ∧
    apply_rules litSearch ⟨"p{Type}".data, [c9R1] ++ c9R2 :: [], c9Dflt⟩ c9CtxZ
      = c9R2.mapping :=
  ⟨by decide, by decide,
    c9_vacuous_rule_amended litSearch [c9R1] c9R2 [] c9Dflt "p{Type}".data c9CtxZ
      (by decide) (by decide)⟩

/-! ## Claim C7 -/

theorem bucketGet_bucketAdd_self {α : Type} (bs : List (Str × List α)) (k : Str) (v : α) :
    bucketGet (bucketAdd bs k v) k = bucketGet bs k ++ [v] := by
  induction bs with
  | nil => simp [bucketAdd, bucketGet]
  | cons b bs ih =>
    by_cases hb : b.1 = k
    · simp [bucketAdd, hb, bucketGet, List.find?_cons]
    · simp only [bucketAdd, if_neg hb, bucketGet, List.find?_cons]
      have : (decide (b.1 = k)) = false := decide_eq_false hb
      simp only [this]
      exact ih

theorem bucketGet_bucketAdd_ne {α : Type} (bs : List (Str × List α)) (k k' : Str) (v : α)
    (h : k ≠ k') : bucketGet (bucketAdd bs k' v) k = bucketGet bs k := by
  induction bs with
  | nil => simp [bucketAdd, bucketGet, List.find?_cons, decide_eq_false (Ne.symm h)]
  | cons b bs ih =>
    by_cases hb : b.1 = k'
    · have hbk : (decide (b.1 = k)) = false := decide_eq_false (by rw [hb]; exact Ne.symm h)
      have hk2 : (decide (k' = k)) = false := decide_eq_false (Ne.symm h)
      simp [bucketAdd, hb, bucketGet, List.find?_cons, hbk, hk2]
    · simp only [bucketAdd, if_neg hb, bucketGet, List.find?_cons]
      cases hdec : decide (b.1 = k) with
      | true => rfl
      | false => exact ih

theorem mem_bucketGet_bucketAdd {α : Type} (bs : List (Str × List α)) (k k' : Str)
    (v v' : α) (h : v ∈ bucketGet bs k) : v ∈ bucketGet (bucketAdd bs k' v') k := by
  by_cases hk : k = k'
  · subst hk
    rw [bucketGet_bucketAdd_self]
    exact List.mem_append_left _ h
  · rw [bucketGet_bucketAdd_ne bs k k' v' hk]
    exact h

theorem sumLens_bucketAdd {α : Type} (bs : List (Str × List α)) (k : Str) (v : α) :
    sumLens (bucketAdd bs k v) = sumLens bs + 1 := by
  induction bs with
  | nil => simp [bucketAdd, sumLens]
  | cons b bs ih =>
    by_cases hb : b.1 = k
    · simp only [bucketAdd, if_pos hb, sumLens, List.map_cons, List.sum_cons,
        List.length_append, List.length_singleton]
      omega
    · simp only [bucketAdd, if_neg hb, sumLens, List.map_cons, List.sum_cons] at ih ⊢
      omega

theorem classifyFold_count {α : Type} (process : α → Except Unit (Str × Int)) :
    ∀ (records : List α) (bs : List (Str × List (α × Str × Int))) (n : Nat),
      (records.foldl (classifyStep process) (bs, n)).2
        = n + records.countP (fun r => exceptErr (process r)) := by
  intro records
  induction records with
  | nil => intro bs n; simp
  | cons r rs ih =>
    intro bs n
    rw [List.foldl_cons, List.countP_cons]
    cases hp : process r with
    | ok cs =>
      rw [show classifyStep process (bs, n) r = (bucketAdd bs cs.1 (r, cs.1, cs.2), n) by
        simp [classifyStep, hp]]
      rw [ih]
      simp [exceptErr, hp]
    | error e =>
      rw [show classifyStep process (bs, n) r
          = (bucketAdd bs "Unknown".data (r, "Unknown".data, 0), n + 1) by
        simp [classifyStep, hp]]
      rw [ih]
      simp [exceptErr, hp]
      omega

theorem classifyFold_mem_preserved {α : Type} (process : α → Except Unit (Str × Int)) :
    ∀ (records : List α) (bs : List (Str × List (α × Str × Int))) (n : Nat) (k : Str)
      (v : α × Str × Int), v ∈ bucketGet bs k →
      v ∈ bucketGet ((records.foldl (classifyStep process) (bs, n)).1) k := by
  intro records
  induction records with
  | nil => intro bs n k v h; simpa using h
  | cons r rs ih =>
    intro bs n k v h
    rw [List.foldl_cons]
    cases hp : process r with
    | ok cs =>
      rw [show classifyStep process (bs, n) r = (bucketAdd bs cs.1 (r, cs.1, cs.2), n) by
        simp [classifyStep, hp]]
      exact ih _ _ _ _ (mem_bucketGet_bucketAdd bs k cs.1 v _ h)
    | error e =>
      rw [show classifyStep process (bs, n) r
          = (bucketAdd bs "Unknown".data (r, "Unknown".data, 0), n + 1) by
        simp [classifyStep, hp]]
      exact ih _ _ _ _ (mem_bucketGet_bucketAdd bs k "Unknown".data v _ h)

theorem classifyFold_err_mem {α : Type} (process : α → Except Unit (Str × Int)) :
    ∀ (records : List α) (bs : List (Str × List (α × Str × Int))) (n : Nat),
      ∀ r ∈ records, ∀ e, process r = Except.error e →
        (r, "Unknown".data, (0 : Int))
          ∈ bucketGet ((records.foldl (classifyStep process) (bs, n)).1) "Unknown".data := by
  intro records
  induction records with
  | nil => intro bs n r hr; exact absurd hr (List.not_mem_nil r)
  | cons a rs ih =>
    intro bs n r hr e he
    rw [List.foldl_cons]
    rcases List.mem_cons.mp hr with rfl | hrs
    · rw [show classifyStep process (bs, n) r
          = (bucketAdd bs "Unknown".data (r, "Unknown".data, 0), n + 1) by
        simp [classifyStep, he]]
      apply classifyFold_mem_preserved
      rw [bucketGet_bucketAdd_self]
      exact List.mem_append_right _ (List.mem_singleton.mpr rfl)
    · cases hp : process a with
      | ok cs =>
        rw [show classifyStep process (bs, n) a = (bucketAdd bs cs.1 (a, cs.1, cs.2), n) by
          simp [classifyStep, hp]]
        exact ih _ _ r hrs e he
      | error e' =>
        rw [show classifyStep process (bs, n) a
            = (bucketAdd bs "Unknown".data (a, "Unknown".data, 0), n + 1) by
          simp [classifyStep, hp]]
        exact ih _ _ r hrs e he

theorem classifyFold_total {α : Type} (process : α → Except Unit (Str × Int)) :
    ∀ (records : List α) (bs : List (Str × List (α × Str × Int))) (n : Nat),
      sumLens ((records.foldl (classifyStep process) (bs, n)).1)
        = sumLens bs + records.length := by
  intro records
  induction records with
  | nil => intro bs n; simp
  | cons r rs ih =>
    intro bs n
    rw [List.foldl_cons]
    cases hp : process r with
    | ok cs =>
      rw [show classifyStep process (bs, n) r = (bucketAdd bs cs.1 (r, cs.1, cs.2), n) by
        simp [classifyStep, hp]]
      rw [ih, sumLens_bucketAdd]
      simp [List.length_cons]
      omega
    | error e =>
      rw [show classifyStep process (bs, n) r
          = (bucketAdd bs "Unknown".data (r, "Unknown".data, 0), n + 1) by
        simp [classifyStep, hp]]
      rw [ih, sumLens_bucketAdd]
      simp [List.length_cons]
      omega

theorem sumLens_initBuckets {α : Type} (priority : List Str) :
    sumLens (initBuckets priority : List (Str × List α)) = 0 := by
  have hbase : ∀ (l : List Str), sumLens (l.map (fun n => (n, ([] : List α)))) = 0 := by
    intro l
    induction l with
    | nil => simp [sumLens]
    | cons a t ih => simp [sumLens, List.map_cons] at ih ⊢; exact ih
  unfold initBuckets
  split
  · exact hbase priority
  · simp only [sumLens, List.map_append]
    rw [List.sum_append]
    have h1 := hbase priority
    simp only [sumLens] at h1
    simp [List.map_map] at h1 ⊢
    exact h1

/-- C7: the batch loop counts exactly the records whose processing
raised; every raising record is force-assigned `("Unknown", 0)` and lands
in the `Unknown` bucket; and every record, failing or not, lands in some
bucket (total bucket size = batch size), so the batch never aborts. -/
theorem c7_batch_error_isolation {α : Type} (process : α → Except Unit (Str × Int))
    (priority : List Str) (records : List α) :
    (classifyBatch process priority records).2
      = records.countP (fun r => exceptErr (process r)) ∧
    (∀ r ∈ records, ∀ e, process r = Except.error e →
      (r, "Unknown".data, (0 : Int))
        ∈ bucketGet (classifyBatch process priority records).1 "Unknown".data) ∧
    sumLens (classifyBatch process priority records).1 = records.length := by
  refine ⟨?_, ?_, ?_⟩
  · unfold classifyBatch
    rw [classifyFold_count process records (initBuckets priority) 0]
    omega
  · intro r hr e he
    unfold classifyBatch
    exact classifyFold_err_mem process records (initBuckets priority) 0 r hr e he
  · unfold classifyBatch
    rw [classifyFold_total process records (initBuckets priority) 0, sumLens_initBuckets]
    omega

/-- A concrete two-record batch for the C7 witness: the first record
processes normally, the second raises. -/
def c7Proc : Bool → Except Unit (Str × Int) :=
  fun b => if b then Except.ok ("Interview_Transcripts".data, 3) else Except.error ()

/-- C7 witness: on a batch whose second record raises, the error count is
1 and the raising record sits in the `Unknown` bucket with score 0. -/
theorem c7_witness :
    (classifyBatch c7Proc ["Interview_Transcripts".data] [true, false]).2 = 1 ∧
    (false, "Unknown".data, (0 : Int))
      ∈ bucketGet (classifyBatch c7Proc ["Interview_Transcripts".data] [true, false]).1
        "Unknown".data ∧
    sumLens (classifyBatch c7Proc ["Interview_Transcripts".data] [true, false]).1 = 2 := by
  have h := c7_batch_error_isolation c7Proc ["Interview_Transcripts".data] [true, false]
  exact ⟨h.1.trans (by decide), h.2.1 false (by decide) () (by decide), h.2.2⟩

/-! ## Claim C8 amended -/

theorem load_triggers_go (ps : List Dict) :
    ∀ (acc : List Trigger),
      (∀ q ∈ ps, from_dict q ≠ Except.error PyErr.typeError) →
      (ps.foldlM (fun acc p =>
        match from_dict p with
        | .ok t => .ok (acc ++ [t])
        | .error PyErr.valueError => .ok acc
        | .error e => .error e) acc : Except PyErr (List Trigger))
        = Except.ok (acc ++ ps.filterMap (fun q => (from_dict q).toOption)) := by
  induction ps with
  | nil =>
    intro acc _
    simp only [List.foldlM_nil, List.filterMap_nil, List.append_nil]
    rfl
  | cons q qs ih =>
    intro acc h
    rw [List.foldlM_cons]
    cases hq : from_dict q with
    | ok t =>
      simp only [hq]
      rw [show ((Except.ok (acc ++ [t]) : Except PyErr (List Trigger)) >>= fun b =>
          List.foldlM _ b qs) = List.foldlM _ (acc ++ [t]) qs from rfl]
      rw [ih (acc ++ [t]) (fun p hp => h p (List.mem_cons_of_mem q hp))]
      simp [List.filterMap_cons, hq, Except.toOption]
    | error e =>
      cases e with
      | valueError =>
        simp only [hq]
        rw [show ((Except.ok acc : Except PyErr (List Trigger)) >>= fun b =>
            List.foldlM _ b qs) = List.foldlM _ acc qs from rfl]
        rw [ih acc (fun p hp => h p (List.mem_cons_of_mem q hp))]
        simp [List.filterMap_cons, hq, Except.toOption]
      | typeError => exact absurd hq (h q (List.mem_cons_self q qs))

/-- C8 amended: the validation performed by `Trigger.from_dict` and the
skipping behaviour of `load_config`.  A convertible but nonpositive score,
an unrecognized variant, a Regex trigger without a truthy pattern, and a
Keyword/Extension trigger whose iterable `Values` has only nulls all fail
with `ValueError`; any successfully constructed trigger has a positive
score; and the per-category loop skips exactly the `ValueError` failures
— a `TypeError` (e.g. `int(None)` for a null score) aborts the load. -/
theorem c8_trigger_validation_amended (p : Dict) (ps : List Dict) :
    (∀ t, from_dict p = Except.ok t → 0 < t.score) ∧
    (∀ s, pyToInt (dgetOr p "Score" (PyVal.scalar (PyScalar.int 0))) = Except.ok s →
      s ≤ 0 → from_dict p = Except.error PyErr.valueError) ∧
    (∀ e, pyToInt (dgetOr p "Score" (PyVal.scalar (PyScalar.int 0))) = Except.error e →
      from_dict p = Except.error e) ∧
    (∀ s, pyToInt (dgetOr p "Score" (PyVal.scalar (PyScalar.int 0))) = Except.ok s →
      0 < s →
      triggerTypeOf p ∉ ["regex".data, "keyword".data, "extension".data] →
      from_dict p = Except.error PyErr.valueError) ∧
    (∀ s, pyToInt (dgetOr p "Score" (PyVal.scalar (PyScalar.int 0))) = Except.ok s →
      0 < s → triggerTypeOf p = "regex".data → pyTruthy (dget p "Pattern") = false →
      from_dict p = Except.error PyErr.valueError) ∧
    (∀ s vs, pyToInt (dgetOr p "Score" (PyVal.scalar (PyScalar.int 0))) = Except.ok s →
      0 < s → triggerTypeOf p = "keyword".data →
      pyIter (dgetOr p "Values" (PyVal.list [])) = Except.ok vs →
      (∀ v ∈ vs, v = PyScalar.null) →
      from_dict p = Except.error PyErr.valueError) ∧
    (∀ s vs, pyToInt (dgetOr p "Score" (PyVal.scalar (PyScalar.int 0))) = Except.ok s →
      0 < s → triggerTypeOf p = "extension".data →
      pyIter (dgetOr p "Values" (PyVal.list [])) = Except.ok vs →
      (∀ v ∈ vs, v = PyScalar.null) →
      from_dict p = Except.error PyErr.valueError) ∧
    ((∀ q ∈ ps, from_dict q ≠ Except.error PyErr.typeError) →
      load_triggers ps = Except.ok (ps.filterMap (fun q => (from_dict q).toOption))) := by
  have hkr : ("keyword".data : Str) ≠ "regex".data := by decide
  have her : ("extension".data : Str) ≠ "regex".data := by decide
  have hek : ("extension".data : Str) ≠ "keyword".data := by decide
  refine ⟨?_, ?_, ?_, ?_, ?_, ?_, ?_, ?_⟩
  · intro t ht
    simp only [from_dict] at ht
    cases hsc : pyToInt (dgetOr p "Score" (PyVal.scalar (PyScalar.int 0))) with
    | error e => rw [hsc] at ht; exact absurd ht (by simp)
    | ok s =>
      rw [hsc] at ht
      simp only at ht
      by_cases hle : s ≤ 0
      · rw [if_pos hle] at ht; exact absurd ht (by simp)
      · rw [if_neg hle] at ht
        have hpos : 0 < s := by omega
        split at ht
        · split at ht
          · exact absurd ht (by simp)
          · split at ht
            · simp only [Except.ok.injEq] at ht
              subst ht
              exact hpos
            · exact absurd ht (by simp)
        · split at ht
          · split at ht
            · exact absurd ht (by simp)
            · split at ht
              · exact absurd ht (by simp)
              · simp only [Except.ok.injEq] at ht
                subst ht
                exact hpos
          · split at ht
            · split at ht
              · exact absurd ht (by simp)
              · split at ht
                · exact absurd ht (by simp)
                · simp only [Except.ok.injEq] at ht
                  subst ht
                  exact hpos
            · exact absurd ht (by simp)
  · intro s hsc hle
    simp only [from_dict, hsc]
    rw [if_pos hle]
  · intro e hsc
    simp only [from_dict, hsc]
  · intro s hsc hpos hne
    have h1 : triggerTypeOf p ≠ "regex".data := fun he => hne (by rw [he]; simp)
    have h2 : triggerTypeOf p ≠ "keyword".data := fun he => hne (by rw [he]; simp)
    have h3 : triggerTypeOf p ≠ "extension".data := fun he => hne (by rw [he]; simp)
    simp only [from_dict, hsc]
    rw [if_neg (by omega), if_neg h1, if_neg h2, if_neg h3]
  · intro s hsc hpos hr hpat
    simp only [from_dict, hsc]
    rw [if_neg (by omega), if_pos hr, hpat]
    rfl
  · intro s vs hsc hpos hk hiter hall
    have hfm : vs.filterMap (fun v => match v with
        | PyScalar.null => none
        | v => some (lowerStr (pyStrS v))) = [] := by
      rw [List.filterMap_eq_nil]
      intro v hv
      rw [hall v hv]
    simp only [from_dict, hsc]
    rw [if_neg (by omega), if_neg (by rw [hk]; exact hkr), if_pos hk, hiter]
    simp [hfm]
  · intro s vs hsc hpos hx hiter hall
    have hfm : vs.filterMap (fun v => match v with
        | PyScalar.null => none
        | v =>
          some (if (lowerStr (pyStrS v)).head? = some '.' then lowerStr (pyStrS v)
            else '.' :: lowerStr (pyStrS v))) = [] := by
      rw [List.filterMap_eq_nil]
      intro v hv
      rw [hall v hv]
    simp only [from_dict, hsc]
    rw [if_neg (by omega), if_neg (by rw [hx]; exact her),
      if_neg (by rw [hx]; exact hek), if_pos hx, hiter]
    simp [hfm]
  · intro h
    unfold load_triggers
    rw [load_triggers_go ps [] h]
    simp

/-- A keyword trigger payload with score 0: `from_dict` raises
`ValueError`, which the loading loop catches and skips. -/
def c8W : Dict :=
  [("Type".data, .scalar (.str "Keyword".data)), ("Score".data, .scalar (.int 0))]

/-- C8 witness: the score-0 payload fails construction with `ValueError`
and the category's trigger load still succeeds (skipping it). -/
theorem c8_witness :
    from_dict c8W = Except.error PyErr.valueError ∧
    load_triggers [c8W] = Except.ok [] := by
  have h := c8_trigger_validation_amended c8W [c8W]
  refine ⟨h.2.1 0 (by decide) (by decide), ?_⟩
  have h8 := h.2.2.2.2.2.2.2 (by decide)
  exact h8.trans (by decide)

/-! ## Claim C2 -/

theorem foldl_trigger_nonneg (rsearch : Str → Str → Bool) (raw : Dict) :
    ∀ (ts : List Trigger) (a : Int), 0 ≤ a → (∀ t ∈ ts, 0 < t.score) →
      0 ≤ ts.foldl (fun a t => if t.matchesRec rsearch raw then a + t.score else a) a := by
  intro ts
  induction ts with
  | nil => intro a ha _; simpa using ha
  | cons t ts ih =>
    intro a ha hpos
    rw [List.foldl_cons]
    apply ih
    · by_cases hm : t.matchesRec rsearch raw = true
      · rw [if_pos hm]
        have := hpos t (by simp)
        omega
      · rw [if_neg hm]; exact ha
    · intro t' ht'
      exact hpos t' (by simp [ht'])

theorem rawScores_nonneg (rsearch : Str → Str → Bool) (configs : List (Str × List Trigger))
    (priority : List Str) (raw : Dict)
    (hpos : ∀ c ∈ configs, ∀ t ∈ c.2, 0 < t.score) :
    ∀ n, 0 ≤ rawScores rsearch configs priority raw n := by
  intro n
  unfold rawScores
  by_cases hmem : priority.contains n = true
  · rw [if_pos hmem]
    cases hf : configs.find? (fun c => decide (c.1 = n)) with
    | none => simp
    | some c =>
      simp only [hf]
      have hc : c ∈ configs := List.mem_of_find?_eq_some hf
      exact foldl_trigger_nonneg rsearch raw c.2 0 (le_refl 0) (fun t ht => hpos c hc t ht)
  · rw [if_neg hmem]

theorem bumpIf_nonneg (c : Bool) (nm : Str) (pr : List Str) (f : Str → Int)
    (h : ∀ n, 0 ≤ f n) : ∀ n, 0 ≤ bumpIf c nm pr f n := by
  intro n
  rw [bumpIf]
  split
  · simp only [bumpScore]
    split
    · have := h n
      omega
    · exact h n
  · exact h n

theorem adjustments_nonneg (ins : Insights) (pr : List Str) (f : Str → Int)
    (h : ∀ n, 0 ≤ f n) : ∀ n, 0 ≤ apply_insight_adjustments ins pr f n := by
  unfold apply_insight_adjustments
  exact bumpIf_nonneg _ _ _ _ (bumpIf_nonneg _ _ _ _ (bumpIf_nonneg _ _ _ _
    (bumpIf_nonneg _ _ _ _ (bumpIf_nonneg _ _ _ _ h))))

/-- The fold of `choose_best_category`: either no element beats the
running best, or the result is the first element attaining the overall
maximum among those beating it. -/
theorem choose_best_aux (scores : Str → Int) :
    ∀ (l : List Str) (b : Str × Int),
      (l.foldl (fun best n => if scores n > best.2 then (n, scores n) else best) b = b ∧
        ∀ n ∈ l, scores n ≤ b.2) ∨
      (∃ l1 c l2, l = l1 ++ c :: l2 ∧ b.2 < scores c ∧
        l.foldl (fun best n => if scores n > best.2 then (n, scores n) else best) b
          = (c, scores c) ∧
        (∀ n ∈ l1, scores n < scores c) ∧ (∀ n ∈ l2, scores n ≤ scores c)) := by
  intro l
  induction l with
  | nil => intro b; left; simp
  | cons a t ih =>
    intro b
    rw [List.foldl_cons]
    by_cases ha : scores a > b.2
    · rw [if_pos ha]
      rcases ih (a, scores a) with ⟨heq, hle⟩ | ⟨l1, c, l2, hsplit, hlt, heq, hbefore, hafter⟩
      · right
        exact ⟨[], a, t, by simp, ha, heq, by simp, hle⟩
      · right
        refine ⟨a :: l1, c, l2, by rw [hsplit]; rfl, ?_, heq, ?_, hafter⟩
        · exact lt_trans ha hlt
        · intro n hn
          rcases List.mem_cons.mp hn with rfl | hn1
          · exact hlt
          · exact hbefore n hn1
    · rw [if_neg ha]
      rcases ih b with ⟨heq, hle⟩ | ⟨l1, c, l2, hsplit, hlt, heq, hbefore, hafter⟩
      · left
        refine ⟨heq, ?_⟩
        intro n hn
        rcases List.mem_cons.mp hn with rfl | hn1
        · omega
        · exact hle n hn1
      · right
        refine ⟨a :: l1, c, l2, by rw [hsplit]; rfl, hlt, heq, ?_, hafter⟩
        intro n hn
        rcases List.mem_cons.mp hn with rfl | hn1
        · omega
        · exact hbefore n hn1

/-- C2: with any config whose triggers all carry positive scores (the
`from_dict` invariant), every accumulated category score is nonnegative;
`choose_best_category` returns the first category in priority order
attaining the maximum (ties to the earlier category), and the classify
step forces `("Unknown", 0)` whenever that best score is ≤ 0. -/
theorem c2_category_resolution (rsearch : Str → Str → Bool)
    (configs : List (Str × List Trigger)) (priority : List Str) (raw : Dict)
    (hpos : ∀ c ∈ configs, ∀ t ∈ c.2, 0 < t.score) :
    (∀ n, 0 ≤ classifyScores rsearch configs priority raw n) ∧
    ((choose_best_category (classifyScores rsearch configs priority raw) priority).2 ≤ 0 →
      resolveRecord (classifyScores rsearch configs priority raw) priority
        = ("Unknown".data, 0)) ∧
    (0 < (choose_best_category (classifyScores rsearch configs priority raw) priority).2 →
      resolveRecord (classifyScores rsearch configs priority raw) priority
        = choose_best_category (classifyScores rsearch configs priority raw) priority ∧
      classifyScores rsearch configs priority raw
          (choose_best_category (classifyScores rsearch configs priority raw) priority).1
        = (choose_best_category (classifyScores rsearch configs priority raw) priority).2 ∧
      (∃ l1 l2,
        priority = l1
          ++ (choose_best_category (classifyScores rsearch configs priority raw) priority).1
          :: l2 ∧
        (∀ n ∈ l1, classifyScores rsearch configs priority raw n
          < (choose_best_category (classifyScores rsearch configs priority raw) priority).2)) ∧
      (∀ n ∈ priority, classifyScores rsearch configs priority raw n
        ≤ (choose_best_category (classifyScores rsearch configs priority raw) priority).2)) := by
  have hnn : ∀ n, 0 ≤ classifyScores rsearch configs priority raw n := by
    unfold classifyScores
    exact adjustments_nonneg _ _ _ (rawScores_nonneg rsearch configs priority raw hpos)
  refine ⟨hnn, ?_, ?_⟩
  · intro hle
    unfold resolveRecord
    rw [if_pos hle]
  · intro hgt
    have hres : resolveRecord (classifyScores rsearch configs priority raw) priority
        = choose_best_category (classifyScores rsearch configs priority raw) priority := by
      unfold resolveRecord
      rw [if_neg (by omega)]
    rcases choose_best_aux (classifyScores rsearch configs priority raw) priority
        ("Unknown".data, -1) with ⟨heq, -⟩ | ⟨l1, c, l2, hsplit, -, heq, hbefore, hafter⟩
    · exfalso
      have : (choose_best_category (classifyScores rsearch configs priority raw) priority).2
          = -1 := by
        unfold choose_best_category
        rw [heq]
      omega
    · have hbc : choose_best_category (classifyScores rsearch configs priority raw) priority
          = (c, classifyScores rsearch configs priority raw c) := by
        unfold choose_best_category
        rw [heq]
      refine ⟨hres, by rw [hbc], ⟨l1, l2, ?_, ?_⟩, ?_⟩
      · rw [hbc, hsplit]
      · intro n hn
        rw [hbc]
        exact hbefore n hn
      · intro n hn
        rw [hbc]
        rw [hsplit] at hn
        rcases List.mem_append.mp hn with hn1 | hn2
        · exact le_of_lt (hbefore n hn1)
        · rcases List.mem_cons.mp hn2 with rfl | hn3
          · exact le_refl _
          · exact hafter n hn3

/-- A two-category config: a `caleb` keyword trigger for
`Interview_Transcripts` and an `.md` extension trigger for
`System_Files`. -/
def c2Cfgs : List (Str × List Trigger) :=
  [("Interview_Transcripts".data, [Trigger.keyword 3 ["caleb".data]]),
   ("System_Files".data, [Trigger.extension 1 [".md".data]])]

def c2Prio : List Str := ["Interview_Transcripts".data, "System_Files".data]

def c2Raw : Dict :=
  [("FileName".data, .scalar (.str "Caleb_interview.txt".data)),
   ("Keywords".data, .list [.str "Caleb".data]),
   ("Extension".data, .scalar (.str ".txt".data))]

/-- C2 witness: the concrete record scores 3 for `Interview_Transcripts`
and 0 elsewhere, and resolution returns it with its score. -/
theorem c2_witness :
    (∀ c ∈ c2Cfgs, ∀ t ∈ c.2, 0 < t.score) ∧
    resolveRecord (classifyScores litSearch c2Cfgs c2Prio c2Raw) c2Prio
      = ("Interview_Transcripts".data, 3) := by
  have h : ∀ c ∈ c2Cfgs, ∀ t ∈ c.2, 0 < t.score := by decide
  refine ⟨h, ?_⟩
  have h2 := (c2_category_resolution litSearch c2Cfgs c2Prio c2Raw h).2.2 (by decide)
  exact h2.1.trans (by decide)

/-! ## Claim C3: template lemmas -/

theorem splitClose?_append : ∀ (n t : Str), '}' ∉ n →
    splitClose? (n ++ '}' :: t) = some (n, t) := by
  intro n
  induction n with
  | nil => intro t _; simp [splitClose?]
  | cons c cs ih =>
    intro t h
    have hc : c ≠ '}' := fun he => h (by rw [he]; exact List.mem_cons_self _ _)
    rw [List.cons_append, splitClose?, if_neg hc,
      ih t (fun hm => h (List.mem_cons_of_mem c hm))]
    rfl

theorem splitClose?_eq_none : ∀ (s : Str), '}' ∉ s → splitClose? s = none := by
  intro s
  induction s with
  | nil => intro _; rfl
  | cons c cs ih =>
    intro h
    have hc : c ≠ '}' := fun he => h (by rw [he]; exact List.mem_cons_self _ _)
    rw [splitClose?, if_neg hc, ih (fun hm => h (List.mem_cons_of_mem c hm))]
    rfl

theorem noBrace_cons (c : Char) (s : Str) (h : noBrace (c :: s) = true) :
    (c ≠ '{' ∧ c ≠ '}') ∧ noBrace s = true := by
  rw [noBrace, List.all_cons, Bool.and_eq_true] at h
  obtain ⟨hc, hs⟩ := h
  rw [Bool.and_eq_true] at hc
  exact ⟨⟨by simpa using hc.1, by simpa using hc.2⟩, hs⟩

theorem noBrace_not_mem (s : Str) (h : noBrace s = true) : '{' ∉ s ∧ '}' ∉ s := by
  induction s with
  | nil => simp
  | cons c cs ih =>
    obtain ⟨⟨h1, h2⟩, hs⟩ := noBrace_cons c cs h
    obtain ⟨ih1, ih2⟩ := ih hs
    constructor
    · intro hm
      rcases List.mem_cons.mp hm with he | hm2
      · exact h1 he.symm
      · exact ih1 hm2
    · intro hm
      rcases List.mem_cons.mp hm with he | hm2
      · exact h2 he.symm
      · exact ih2 hm2

theorem subTokens_append_lit : ∀ (l t : Str), noBrace l = true →
    subTokens (l ++ t) = l ++ subTokens t := by
  intro l
  induction l with
  | nil => intro t _; rfl
  | cons c cs ih =>
    intro t h
    obtain ⟨⟨h1, -⟩, hs⟩ := noBrace_cons c cs h
    rw [List.cons_append, subTokens_cons, if_neg h1, ih t hs]
    rfl

theorem subTokens_tok (n t : Str) (hne : ¬n.isEmpty = true) (hnb : noBrace n = true) :
    subTokens ('{' :: (n ++ '}' :: t)) = unknownStr ++ subTokens t := by
  rw [subTokens_cons, if_pos rfl, splitClose?_append n t (noBrace_not_mem n hnb).2]
  simp only [if_neg hne]

theorem subTokens_template : ∀ (segs : List Seg), (∀ s ∈ segs, wfSeg s = true) →
    subTokens (renderTemplate segs) = (segs.map (fun seg => match seg with
      | Seg.lit s => s
      | Seg.tok _ => unknownStr)).flatten := by
  intro segs
  induction segs with
  | nil => intro _; rfl
  | cons s segs ih =>
    intro h
    have hs := h s (List.mem_cons_self s segs)
    have hrest := fun x hx => h x (List.mem_cons_of_mem s hx)
    have hrt : renderTemplate (s :: segs) = renderSeg s ++ renderTemplate segs := by
      simp [renderTemplate]
    rw [hrt, List.map_cons, List.flatten_cons]
    cases s with
    | lit l =>
      rw [show renderSeg (Seg.lit l) = l from rfl]
      rw [subTokens_append_lit l _ hs]
      rw [ih hrest]
    | tok n =>
      rw [wfSeg, Bool.and_eq_true] at hs
      rw [show (renderSeg (Seg.tok n) ++ renderTemplate segs : Str)
        = '{' :: (n ++ '}' :: renderTemplate segs) by simp [renderSeg]]
      rw [subTokens_tok n _ (by simpa using hs.1) hs.2]
      rw [ih hrest]

theorem replaceAll_append_nomatch (k repl : Str) : ∀ (l t : Str), noBrace l = true →
    replaceAll ('{' :: k ++ ['}']) repl (l ++ t)
      = l ++ replaceAll ('{' :: k ++ ['}']) repl t := by
  intro l
  induction l with
  | nil => intro t _; rfl
  | cons c cs ih =>
    intro t h
    obtain ⟨⟨h1, -⟩, hs⟩ := noBrace_cons c cs h
    rw [show ((c :: cs) ++ t : Str) = c :: (cs ++ t) from rfl, replaceAll_cons]
    have hpeel : peel? ('{' :: k ++ ['}']) (c :: (cs ++ t)) = none := by
      rw [show ('{' :: k ++ ['}'] : Str) = '{' :: (k ++ ['}']) from rfl, peel?, if_neg h1]
    rw [hpeel, if_neg (by simp)]
    rw [ih t hs]
    rfl

theorem peel?_token_ne : ∀ (k n : Str), k ≠ n → noBrace k = true → noBrace n = true →
    ∀ t, peel? (k ++ ['}']) (n ++ '}' :: t) = none := by
  intro k
  induction k with
  | nil =>
    intro n hne _ hnb t
    cases n with
    | nil => exact absurd rfl hne
    | cons c cs =>
      obtain ⟨⟨-, h2⟩, -⟩ := noBrace_cons c cs hnb
      rw [List.nil_append, List.cons_append, peel?, if_neg h2]
  | cons kh ks ih =>
    intro n hne hkb hnb t
    obtain ⟨⟨-, hk2⟩, hks⟩ := noBrace_cons kh ks hkb
    cases n with
    | nil =>
      rw [List.cons_append, List.nil_append, peel?, if_neg (fun he => hk2 he.symm)]
    | cons nh ns =>
      obtain ⟨-, hns⟩ := noBrace_cons nh ns hnb
      rw [List.cons_append, List.cons_append, peel?]
      by_cases h : nh = kh
      · rw [if_pos h]
        apply ih ns _ hks hns
        intro he
        exact hne (by rw [h.symm, he])
      · rw [if_neg h]

theorem replaceAll_tok_match (k repl t : Str) :
    replaceAll ('{' :: k ++ ['}']) repl ('{' :: (k ++ '}' :: t))
      = repl ++ replaceAll ('{' :: k ++ ['}']) repl t := by
  rw [replaceAll_cons]
  have hpeel : peel? ('{' :: k ++ ['}']) ('{' :: (k ++ '}' :: t)) = some t := by
    rw [peel?_eq_some]
    simp
  rw [hpeel]
  have hcond : (!('{' :: k ++ ['}'] : Str).isEmpty
      && (some t : Option Str).isSome) = true := by simp
  rw [if_pos hcond]
  have hdrop : ('{' :: (k ++ '}' :: t)).drop ('{' :: k ++ ['}'] : Str).length = t := by
    rw [show ('{' :: (k ++ '}' :: t) : Str) = ('{' :: k ++ ['}']) ++ t by simp]
    exact List.drop_left _ _
  rw [hdrop]

theorem replaceAll_tok_nomatch (k n repl t : Str) (hne : k ≠ n)
    (hkb : noBrace k = true) (hnb : noBrace n = true) :
    replaceAll ('{' :: k ++ ['}']) repl ('{' :: (n ++ '}' :: t))
      = '{' :: (n ++ '}' :: replaceAll ('{' :: k ++ ['}']) repl t) := by
  rw [replaceAll_cons]
  have hpeel : peel? ('{' :: k ++ ['}']) ('{' :: (n ++ '}' :: t)) = none := by
    rw [show ('{' :: k ++ ['}'] : Str) = '{' :: (k ++ ['}']) from rfl, peel?, if_pos rfl]
    exact peel?_token_ne k n hne hkb hnb t
  rw [hpeel]
  rw [if_neg (by simp)]
  rw [replaceAll_append_nomatch k repl n ('}' :: t) hnb]
  rw [show replaceAll ('{' :: k ++ ['}']) repl ('}' :: t)
      = '}' :: replaceAll ('{' :: k ++ ['}']) repl t from ?_]
  · rw [replaceAll_cons]
    have hpeel2 : peel? ('{' :: k ++ ['}']) ('}' :: t) = none := by
      rw [show ('{' :: k ++ ['}'] : Str) = '{' :: (k ++ ['}']) from rfl, peel?,
        if_neg (by decide)]
    rw [hpeel2, if_neg (by simp)]

theorem substOne_wf (k repl : Str) (hrep : noBrace repl = true) (segs : List Seg)
    (h : ∀ s ∈ segs, wfSeg s = true) : ∀ s ∈ substOne k repl segs, wfSeg s = true := by
  intro s hs
  rw [substOne, List.mem_map] at hs
  obtain ⟨a, ha, hmap⟩ := hs
  have hwa := h a ha
  cases a with
  | lit l => rw [← hmap]; exact hwa
  | tok n =>
    by_cases hn : n = k
    · simp only [hn, if_pos rfl] at hmap
      rw [← hmap]
      exact hrep
    · simp only [if_neg hn] at hmap
      rw [← hmap]
      exact hwa

theorem replaceAll_template (k repl : Str) (hkb : noBrace k = true) :
    ∀ (segs : List Seg), (∀ s ∈ segs, wfSeg s = true) →
      replaceAll ('{' :: k ++ ['}']) repl (renderTemplate segs)
        = renderTemplate (substOne k repl segs) := by
  intro segs
  induction segs with
  | nil => intro _; rfl
  | cons s segs ih =>
    intro h
    have hs := h s (List.mem_cons_self s segs)
    have hrest := fun x hx => h x (List.mem_cons_of_mem s hx)
    cases s with
    | lit l =>
      have hrt : renderTemplate (Seg.lit l :: segs) = l ++ renderTemplate segs := by
        simp [renderTemplate, renderSeg]
      have hsub : substOne k repl (Seg.lit l :: segs) = Seg.lit l :: substOne k repl segs := by
        simp [substOne]
      rw [hrt, replaceAll_append_nomatch k repl l _ hs, ih hrest, hsub]
      simp [renderTemplate, renderSeg]
    | tok n =>
      rw [wfSeg, Bool.and_eq_true] at hs
      have hrt : renderTemplate (Seg.tok n :: segs)
          = '{' :: (n ++ '}' :: renderTemplate segs) := by
        simp [renderTemplate, renderSeg]
      by_cases hn : n = k
      · subst hn
        have hsub : substOne n repl (Seg.tok n :: segs)
            = Seg.lit repl :: substOne n repl segs := by
          simp [substOne]
        rw [hrt, replaceAll_tok_match n repl (renderTemplate segs), ih hrest, hsub]
        simp [renderTemplate, renderSeg]
      · have hsub : substOne k repl (Seg.tok n :: segs)
            = Seg.tok n :: substOne k repl segs := by
          simp [substOne, hn]
        rw [hrt, replaceAll_tok_nomatch k n repl (renderTemplate segs)
          (fun he => hn he.symm) hkb hs.2, ih hrest, hsub]
        simp [renderTemplate, renderSeg]

theorem foldl_replace_template :
    ∀ (mapping : Dict) (segs : List Seg),
      (∀ s ∈ segs, wfSeg s = true) →
      (∀ kv ∈ mapping, noBrace kv.1 = true ∧ noBrace (mappingRepl kv.2) = true) →
      (mapping.foldl
          (fun acc kv => replaceAll ('{' :: kv.1 ++ ['}']) (mappingRepl kv.2) acc)
          (renderTemplate segs)
        = renderTemplate (substAll mapping segs) ∧
      (∀ s ∈ substAll mapping segs, wfSeg s = true)) := by
  intro mapping
  induction mapping with
  | nil =>
    intro segs hw _
    exact ⟨rfl, hw⟩
  | cons kv ms ih =>
    intro segs hw hm
    have hkv := hm kv (List.mem_cons_self kv ms)
    have hms := fun q hq => hm q (List.mem_cons_of_mem kv hq)
    have hw' := substOne_wf kv.1 (mappingRepl kv.2) hkv.2 segs hw
    have hsa : substAll (kv :: ms) segs = substAll ms (substOne kv.1 (mappingRepl kv.2) segs) := by
      simp [substAll]
    rw [List.foldl_cons, hsa]
    rw [replaceAll_template kv.1 (mappingRepl kv.2) hkv.1 segs hw]
    exact ⟨(ih _ hw' hms).1, (ih _ hw' hms).2⟩

theorem substAll_resolve : ∀ (mapping : Dict) (segs : List Seg),
    substAll mapping segs = segs.map (fun seg => match seg with
      | Seg.tok n =>
        match mapping.find? (fun kv => decide (kv.1 = n)) with
        | some kv => Seg.lit (mappingRepl kv.2)
        | none => Seg.tok n
      | s => s) := by
  intro mapping
  induction mapping with
  | nil =>
    intro segs
    show segs = _
    induction segs with
    | nil => rfl
    | cons s segs ihs =>
      rw [List.map_cons, ← ihs]
      cases s <;> rfl
  | cons kv ms ih =>
    intro segs
    have hsa : substAll (kv :: ms) segs = substAll ms (substOne kv.1 (mappingRepl kv.2) segs) := by
      simp [substAll]
    rw [hsa, ih, substOne, List.map_map]
    apply List.map_congr_left
    intro a _
    cases a with
    | lit l => rfl
    | tok n =>
      simp only [Function.comp_apply]
      by_cases hn : n = kv.1
      · rw [if_pos hn]
        have : (kv :: ms).find? (fun kv' => decide (kv'.1 = n)) = some kv := by
          rw [List.find?_cons, show (decide (kv.1 = n)) = true from decide_eq_true hn.symm]
        rw [this]
      · rw [if_neg hn]
        have : (kv :: ms).find? (fun kv' => decide (kv'.1 = n))
            = ms.find? (fun kv' => decide (kv'.1 = n)) := by
          rw [List.find?_cons,
            show (decide (kv.1 = n)) = false from decide_eq_false (fun he => hn he.symm)]
        rw [this]

theorem splitClose?_isSome_of_mem : ∀ (s : Str), '}' ∈ s → (splitClose? s).isSome = true := by
  intro s
  induction s with
  | nil => intro h; exact absurd h (List.not_mem_nil _)
  | cons c cs ih =>
    intro h
    rw [splitClose?]
    by_cases hc : c = '}'
    · rw [if_pos hc]; rfl
    · rw [if_neg hc]
      have hm : '}' ∈ cs := by
        rcases List.mem_cons.mp h with he | hm
        · exact absurd he.symm hc
        · exact hm
      cases hsp : splitClose? cs with
      | none => rw [hsp] at ih; exact absurd (ih hm) (by simp)
      | some p => simp [hsp]

theorem subTokens_no_close : ∀ (s : Str), '}' ∉ s → subTokens s = s := by
  intro s
  induction s with
  | nil => intro _; rfl
  | cons c cs ih =>
    intro h
    have hcs : '}' ∉ cs := fun hm => h (List.mem_cons_of_mem c hm)
    rw [subTokens_cons]
    by_cases hc : c = '{'
    · rw [if_pos hc, splitClose?_eq_none cs hcs, ih hcs, hc]
    · rw [if_neg hc, ih hcs]

theorem hasTok_no_close : ∀ (s : Str), '}' ∉ s → hasTok s = false := by
  intro s
  induction s with
  | nil => intro _; rfl
  | cons c cs ih =>
    intro h
    have hcs : '}' ∉ cs := fun hm => h (List.mem_cons_of_mem c hm)
    rw [hasTok, splitClose?_eq_none cs hcs, ih hcs]
    simp

theorem hasTok_append_noBrace : ∀ (l t : Str), noBrace l = true →
    hasTok (l ++ t) = hasTok t := by
  intro l
  induction l with
  | nil => intro t _; rfl
  | cons c cs ih =>
    intro t h
    obtain ⟨⟨h1, -⟩, hs⟩ := noBrace_cons c cs h
    rw [show ((c :: cs) ++ t : Str) = c :: (cs ++ t) from rfl, hasTok, if_neg h1, ih t hs]
    simp

theorem subTokens_hasTok_aux : ∀ (N : Nat) (s : Str), s.length ≤ N →
    hasTok (subTokens s) = false := by
  intro N
  induction N with
  | zero =>
    intro s h
    have : s = [] := List.eq_nil_of_length_eq_zero (by omega)
    subst this
    rfl
  | succ N ih =>
    intro s hlen
    cases s with
    | nil => rfl
    | cons c rest =>
      have hr : rest.length ≤ N := by
        simp only [List.length_cons] at hlen
        omega
      by_cases hc : c = '{'
      · subst hc
        rw [subTokens_cons, if_pos rfl]
        cases hsp : splitClose? rest with
        | none =>
          have hnc : '}' ∉ rest := by
            intro hm
            have hsome := splitClose?_isSome_of_mem rest hm
            rw [hsp] at hsome
            exact absurd hsome (by simp)
          rw [subTokens_no_close rest hnc, hasTok, hsp, hasTok_no_close rest hnc]
          simp
        | some p =>
          obtain ⟨gap, rest2⟩ := p
          obtain ⟨hspec, -⟩ := splitClose?_spec rest gap rest2 hsp
          dsimp only
          by_cases hg : gap.isEmpty
          · rw [if_pos hg]
            have hgnil : gap = [] := by
              cases gap with
              | nil => rfl
              | cons a b => simp [List.isEmpty] at hg
            rw [hgnil, List.nil_append] at hspec
            subst hspec
            rw [show subTokens ('}' :: rest2) = '}' :: subTokens rest2 by
              rw [subTokens_cons, if_neg (by decide)]]
            have hrec : hasTok (subTokens rest2) = false := by
              apply ih
              simp only [List.length_cons] at hr
              omega
            rw [hasTok, if_pos rfl,
              show splitClose? ('}' :: subTokens rest2) = some ([], subTokens rest2) by
                rw [splitClose?, if_pos rfl],
              hasTok, hrec]
            simp [hasTok]
          · rw [if_neg hg]
            have hrec : hasTok (subTokens rest2) = false := by
              apply ih
              rw [hspec] at hr
              simp only [List.length_append, List.length_cons] at hr
              omega
            rw [hasTok_append_noBrace unknownStr _ (by decide)]
            exact hrec
      · rw [subTokens_cons, if_neg hc, hasTok, if_neg hc, ih rest hr]
        simp

theorem subTokens_hasTok (s : Str) : hasTok (subTokens s) = false :=
  subTokens_hasTok_aux s.length s (le_refl _)

theorem noBrace_flatten : ∀ (ls : List Str), (∀ l ∈ ls, noBrace l = true) →
    noBrace ls.flatten = true := by
  intro ls
  induction ls with
  | nil => intro _; rfl
  | cons l ls ih =>
    intro h
    rw [List.flatten_cons, noBrace, List.all_append]
    rw [show (List.all l fun c => c ≠ '{' && c ≠ '}') = noBrace l from rfl,
      show (List.all ls.flatten fun c => c ≠ '{' && c ≠ '}') = noBrace ls.flatten from rfl]
    rw [h l (List.mem_cons_self l ls), ih (fun x hx => h x (List.mem_cons_of_mem l hx))]
    rfl

theorem renderResolved_noBrace (mapping : Dict) (segs : List Seg)
    (hw : ∀ s ∈ segs, wfSeg s = true)
    (hm : ∀ kv ∈ mapping, noBrace (mappingRepl kv.2) = true) :
    noBrace (renderResolved mapping segs) = true := by
  unfold renderResolved
  apply noBrace_flatten
  intro l hl
  rw [List.mem_map] at hl
  obtain ⟨a, ha, hmap⟩ := hl
  cases a with
  | lit s =>
    rw [← hmap]
    exact hw _ ha
  | tok n =>
    rw [← hmap]
    show noBrace (resolveTok mapping n) = true
    unfold resolveTok
    cases hf : mapping.find? (fun kv => decide (kv.1 = n)) with
    | none => decide
    | some kv => exact hm kv (List.mem_of_find?_eq_some hf)

/-- C3 amended: (1) for every pattern and mapping, the produced file name
contains no complete brace token with a nonempty body (empty `\x7b\x7d`
pairs, unmatched braces, and braces smuggled in by mapping values may
remain — that is the correction); (2) on a well-formed template with
brace-free keys and replacement texts, substitution is exactly the
claim's rendering: bound tokens become their value's string form (null
as empty, empty as `"Unknown"`), unbound tokens become `"Unknown"`, and
the output is entirely brace-free. -/
theorem c3_substitution_amended :
    (∀ (pattern : Str) (mapping : Dict),
      hasTok (replace_placeholders pattern mapping) = false) ∧
    (∀ (segs : List Seg) (mapping : Dict),
      (∀ s ∈ segs, wfSeg s = true) →
      (∀ kv ∈ mapping, noBrace kv.1 = true ∧ noBrace (mappingRepl kv.2) = true) →
      replace_placeholders (renderTemplate segs) mapping = renderResolved mapping segs ∧
      noBrace (renderResolved mapping segs) = true) := by
  constructor
  · intro pattern mapping
    unfold replace_placeholders
    exact subTokens_hasTok _
  · intro segs mapping hw hm
    have hfold := foldl_replace_template mapping segs hw hm
    constructor
    · unfold replace_placeholders
      rw [hfold.1, subTokens_template _ hfold.2, substAll_resolve]
      unfold renderResolved
      rw [List.map_map]
      apply congrArg List.flatten
      apply List.map_congr_left
      intro a _
      cases a with
      | lit l => rfl
      | tok n =>
        simp only [Function.comp_apply]
        cases hf : mapping.find? (fun kv => decide (kv.1 = n)) with
        | none => simp [resolveTok, hf]
        | some kv => simp [resolveTok, hf]
    · exact renderResolved_noBrace mapping segs hw (fun kv hkv => (hm kv hkv).2)

/-- A concrete well-formed template `GW_\x7bType\x7d_x\x7bMissing\x7d` and
a mapping binding only `Type`. -/
def c3Segs : List Seg :=
  [Seg.lit "GW_".data, Seg.tok "Type".data, Seg.lit "_x".data, Seg.tok "Missing".data]

def c3Map : Dict := [("Type".data, .scalar (.str "Statistics".data))]

/-- C3 witness: the template renders with the bound token substituted and
the unbound token as `Unknown`. -/
theorem c3_witness :
    (∀ s ∈ c3Segs, wfSeg s = true) ∧
    replace_placeholders (renderTemplate c3Segs) c3Map = "GW_Statistics_xUnknown".data :=
  ⟨by decide,
    ((c3_substitution_amended.2 c3Segs c3Map (by decide) (by decide)).1).trans (by decide)⟩

/-! ## Claim C1: decimal rendering, sorting and path lemmas -/

theorem toDigitsCore_eq_decChars : ∀ (fuel n : Nat) (acc : List Char), n < fuel →
    Nat.toDigitsCore 10 fuel n acc = decChars n ++ acc := by
  intro fuel
  induction fuel with
  | zero => intro n acc h; omega
  | succ f ih =>
    intro n acc h
    simp only [Nat.toDigitsCore]
    by_cases hdiv : n / 10 = 0
    · rw [if_pos hdiv]
      have hn10 : n < 10 := by omega
      rw [decChars, dif_pos hn10, Nat.mod_eq_of_lt hn10]
      rfl
    · rw [if_neg hdiv]
      have hf : n / 10 < f := by omega
      rw [ih (n / 10) (Nat.digitChar (n % 10) :: acc) hf]
      have hd : decChars n = decChars (n / 10) ++ [Nat.digitChar (n % 10)] := by
        rw [decChars, dif_neg (by omega)]
      rw [hd]
      simp [List.append_assoc]

theorem repr_data_eq_decChars (n : Nat) : (Nat.repr n).data = decChars n := by
  show (Nat.toDigitsCore 10 (n + 1) n []).asString.data = decChars n
  rw [toDigitsCore_eq_decChars (n + 1) n [] (Nat.lt_succ_self n)]
  rw [List.append_nil]
  rfl

theorem decVal_append (l : List Char) (c : Char) :
    decVal (l ++ [c]) = 10 * decVal l + (c.toNat - 48) := by
  simp [decVal, List.foldl_append]

theorem digitChar_sub : ∀ n, n < 10 → (Nat.digitChar n).toNat - 48 = n := by decide

theorem decVal_decChars : ∀ n, decVal (decChars n) = n := by
  intro n
  induction n using Nat.strong_induction_on with
  | _ n ih =>
    by_cases h : n < 10
    · rw [decChars, dif_pos h]
      simpa [decVal] using digitChar_sub n h
    · rw [decChars, dif_neg h]
      rw [decVal_append]
      rw [ih (n / 10) (Nat.div_lt_self (by omega) (by omega))]
      rw [digitChar_sub (n % 10) (Nat.mod_lt n (by omega))]
      omega

theorem repr_data_inj (m n : Nat) (h : (Nat.repr m).data = (Nat.repr n).data) : m = n := by
  rw [repr_data_eq_decChars, repr_data_eq_decChars] at h
  have hm := decVal_decChars m
  rw [h, decVal_decChars n] at hm
  exact hm.symm

theorem mem_insertByScore (e : RenameEntry) :
    ∀ (l : List RenameEntry) (x : RenameEntry),
      x ∈ insertByScore e l ↔ x = e ∨ x ∈ l := by
  intro l
  induction l with
  | nil => intro x; simp [insertByScore]
  | cons y ys ih =>
    intro x
    rw [insertByScore]
    split
    · simp [List.mem_cons]
    · rw [List.mem_cons, ih x, List.mem_cons]
      tauto

theorem mem_sortByScoreDesc : ∀ (l : List RenameEntry) (x : RenameEntry),
    x ∈ sortByScoreDesc l ↔ x ∈ l := by
  intro l
  induction l with
  | nil => intro x; simp [sortByScoreDesc]
  | cons y ys ih =>
    intro x
    rw [sortByScoreDesc, mem_insertByScore, ih, List.mem_cons]

theorem sorted_insertByScore (e : RenameEntry) :
    ∀ (l : List RenameEntry),
      List.Pairwise (fun a b => b.score ≤ a.score) l →
      List.Pairwise (fun a b => b.score ≤ a.score) (insertByScore e l) := by
  intro l
  induction l with
  | nil => intro _; simp [insertByScore]
  | cons y ys ih =>
    intro hp
    rw [List.pairwise_cons] at hp
    obtain ⟨hy, hys⟩ := hp
    rw [insertByScore]
    split
    · rename_i hle
      rw [List.pairwise_cons]
      constructor
      · intro z hz
        rcases List.mem_cons.mp hz with rfl | hz2
        · exact hle
        · exact le_trans (hy z hz2) hle
      · rw [List.pairwise_cons]
        exact ⟨hy, hys⟩
    · rename_i hgt
      rw [List.pairwise_cons]
      constructor
      · intro z hz
        rw [mem_insertByScore] at hz
        rcases hz with rfl | hz2
        · omega
        · exact hy z hz2
      · exact ih hys

theorem sorted_sortByScoreDesc : ∀ (l : List RenameEntry),
    List.Pairwise (fun a b => b.score ≤ a.score) (sortByScoreDesc l) := by
  intro l
  induction l with
  | nil => simp [sortByScoreDesc]
  | cons y ys ih => exact sorted_insertByScore y _ ih

theorem length_insertByScore (e : RenameEntry) :
    ∀ (l : List RenameEntry), (insertByScore e l).length = l.length + 1 := by
  intro l
  induction l with
  | nil => rfl
  | cons y ys ih =>
    rw [insertByScore]
    split
    · simp
    · simp only [List.length_cons, ih]

theorem length_sortByScoreDesc : ∀ (l : List RenameEntry),
    (sortByScoreDesc l).length = l.length := by
  intro l
  induction l with
  | nil => rfl
  | cons y ys ih =>
    rw [sortByScoreDesc, length_insertByScore, ih, List.length_cons]

theorem takeWhile_append_char (p : Char → Bool) :
    ∀ (l : Str) (c : Char) (t : Str), (∀ x ∈ l, p x = true) → p c = false →
      (l ++ c :: t).takeWhile p = l := by
  intro l
  induction l with
  | nil =>
    intro c t _ hc
    rw [List.nil_append, List.takeWhile_cons, hc]
    rfl
  | cons a as ih =>
    intro c t h hc
    rw [List.cons_append, List.takeWhile_cons, h a (List.mem_cons_self a as),
      ih c t (fun x hx => h x (List.mem_cons_of_mem a hx)) hc]
    rfl

theorem pathParent_append (dir nm : Str) (hnm : '/' ∉ nm) (hd0 : dir ≠ []) :
    pathParent (dir ++ '/' :: nm) = dir := by
  unfold pathParent
  have hrev : (dir ++ '/' :: nm).reverse = nm.reverse ++ '/' :: dir.reverse := by
    simp
  rw [hrev]
  have htw : (nm.reverse ++ '/' :: dir.reverse).takeWhile (fun c => c ≠ '/') = nm.reverse := by
    apply takeWhile_append_char
    · intro x hx
      rw [List.mem_reverse] at hx
      simp only [ne_eq, decide_eq_true_eq]
      intro he
      exact hnm (he ▸ hx)
    · decide
  rw [htw]
  rw [if_neg (by
    simp only [List.length_reverse, List.length_append, List.length_cons]
    omega)]
  have hdrop : (nm.reverse ++ '/' :: dir.reverse).drop (nm.reverse.length + 1)
      = dir.reverse := by
    rw [show (nm.reverse ++ '/' :: dir.reverse : Str)
      = (nm.reverse ++ ['/']) ++ dir.reverse by simp]
    rw [show nm.reverse.length + 1 = (nm.reverse ++ ['/'] : Str).length by simp]
    exact List.drop_left _ _
  rw [hdrop, List.reverse_reverse]
  rw [if_neg (by simpa using hd0)]

theorem pathJoin_plain (dir n : Str) (h1 : dir ≠ ['.']) (h2 : dir ≠ ['/']) :
    pathJoin dir n = dir ++ '/' :: n := by
  unfold pathJoin
  rw [if_neg h1, if_neg h2]

theorem pySuffix_length_le (nm : Str) : (pySuffix nm).length ≤ nm.length := by
  unfold pySuffix
  split
  · simp
  · split
    · simp
    · split
      · simp
      · rename_i h1 h2 h3
        simp only [List.length_cons, List.length_reverse]
        have hle : ((nm.reverse.takeWhile (fun c => c ≠ '.'))).length ≤ nm.length := by
          have := (List.takeWhile_sublist (l := nm.reverse)
            (fun c => decide (c ≠ '.'))).length_le
          simpa using this
        simp only [List.length_reverse] at h1 h2 h3
        omega

theorem pyStem_length (nm : Str) : (pyStem nm).length = nm.length - (pySuffix nm).length := by
  unfold pyStem
  rw [List.length_take]
  have := pySuffix_length_le nm
  omega

/-- The file name an `AddVersion` rewrite produces at 0-based sorted
position `k` for an entry currently named `nm`. -/
def addvName (nm : Str) (k : Nat) : Str :=
  pyStem nm ++ "_v".data ++ (Nat.repr (k + 1)).data ++ pySuffix nm

/-- The file name an `AppendRank` rewrite produces for rendered rank `r`. -/
def rankName (nm r : Str) : Str :=
  pyStem nm ++ "_rank".data ++ r ++ pySuffix nm

theorem addvName_ne_base (nm : Str) (k : Nat) : addvName nm k ≠ nm := by
  intro h
  have hlen := congrArg List.length h
  simp only [addvName, List.length_append, List.length_cons, List.length_nil] at hlen
  rw [pyStem_length] at hlen
  have h1 := pySuffix_length_le nm
  omega

theorem rankName_ne_base (nm r : Str) : rankName nm r ≠ nm := by
  intro h
  have hlen := congrArg List.length h
  simp only [rankName, List.length_append, List.length_cons, List.length_nil] at hlen
  rw [pyStem_length] at hlen
  have h1 := pySuffix_length_le nm
  omega

theorem addvName_inj (nm : Str) (k1 k2 : Nat) (h : addvName nm k1 = addvName nm k2) :
    k1 = k2 := by
  unfold addvName at h
  have h1 := List.append_cancel_right h
  have h2 := List.append_cancel_left h1
  have := repr_data_inj (k1 + 1) (k2 + 1) h2
  omega

theorem rankName_inj (nm r1 r2 : Str) (h : rankName nm r1 = rankName nm r2) : r1 = r2 := by
  unfold rankName at h
  have h1 := List.append_cancel_right h
  exact List.append_cancel_left h1

theorem rewriteEntry_addv (k : Nat) (e : RenameEntry) (nm dir : Str)
    (hn : e.newFileName = nm) (hp : e.newPath = dir ++ '/' :: nm)
    (hnm : '/' ∉ nm) (hd0 : dir ≠ []) (hdot : dir ≠ ['.']) (hslash : dir ≠ ['/']) :
    rewriteEntry "AddVersion".data k e =
      { e with newFileName := addvName nm k, newPath := dir ++ '/' :: addvName nm k } := by
  unfold rewriteEntry
  rw [if_pos rfl, hn, hp, pathParent_append dir nm hnm hd0]
  dsimp only
  rw [pathJoin_plain dir _ hdot hslash]
  rfl

theorem rewriteEntry_rank (k : Nat) (e : RenameEntry) (nm dir : Str)
    (hn : e.newFileName = nm) (hp : e.newPath = dir ++ '/' :: nm)
    (hnm : '/' ∉ nm) (hd0 : dir ≠ []) (hdot : dir ≠ ['.']) (hslash : dir ≠ ['/']) :
    rewriteEntry "AppendRank".data k e =
      { e with newFileName := rankName nm (pyStr e.rank)
               newPath := dir ++ '/' :: rankName nm (pyStr e.rank) } := by
  unfold rewriteEntry
  rw [if_neg (by decide), if_pos rfl, hn, hp, pathParent_append dir nm hnm hd0]
  dsimp only
  rw [pathJoin_plain dir _ hdot hslash]
  rfl

theorem rewriteTail_addv_paths (nm dir : Str) (hnm : '/' ∉ nm) (hd0 : dir ≠ [])
    (hdot : dir ≠ ['.']) (hslash : dir ≠ ['/']) :
    ∀ (l : List RenameEntry) (k : Nat),
      (∀ x ∈ l, x.newFileName = nm ∧ x.newPath = dir ++ '/' :: nm) →
      (rewriteTail "AddVersion".data k l).map RenameEntry.newPath
        = (List.range l.length).map (fun i => dir ++ '/' :: addvName nm (k + i)) := by
  intro l
  induction l with
  | nil => intro k _; rfl
  | cons x xs ih =>
    intro k h
    have hx := h x (List.mem_cons_self x xs)
    rw [rewriteTail, List.map_cons,
      rewriteEntry_addv k x nm dir hx.1 hx.2 hnm hd0 hdot hslash,
      ih (k + 1) (fun y hy => h y (List.mem_cons_of_mem x hy)),
      List.length_cons, List.range_succ_eq_map, List.map_cons, List.map_map]
    congr 1
    apply List.map_congr_left
    intro i _
    simp only [Function.comp_apply]
    rw [show k + (i + 1) = (k + 1) + i by omega]

theorem rewriteTail_rank_paths (nm dir : Str) (hnm : '/' ∉ nm) (hd0 : dir ≠ [])
    (hdot : dir ≠ ['.']) (hslash : dir ≠ ['/']) :
    ∀ (l : List RenameEntry) (k : Nat),
      (∀ x ∈ l, x.newFileName = nm ∧ x.newPath = dir ++ '/' :: nm) →
      (rewriteTail "AppendRank".data k l).map RenameEntry.newPath
        = l.map (fun x => dir ++ '/' :: rankName nm (pyStr x.rank)) := by
  intro l
  induction l with
  | nil => intro k _; rfl
  | cons x xs ih =>
    intro k h
    have hx := h x (List.mem_cons_self x xs)
    rw [rewriteTail, List.map_cons,
      rewriteEntry_rank k x nm dir hx.1 hx.2 hnm hd0 hdot hslash,
      ih (k + 1) (fun y hy => h y (List.mem_cons_of_mem x hy)), List.map_cons]

/-- C1 amended: for a conflict group (entries sharing one name and one
destination path), resolution keeps the sorted head — an entry of maximal
inventory score — unchanged, and under `AddVersion` (or `AppendRank` with
pairwise-distinct rendered ranks among the non-top sorted entries) the
resolved entries' destination paths are pairwise distinct within the
group.  Nothing relates paths across different groups. -/
theorem c1_group_resolution_amended (strategy : Str) (entries : List RenameEntry)
    (nm dir : Str) (hlen : 1 < entries.length)
    (hsame : ∀ e ∈ entries, e.newFileName = nm ∧ e.newPath = dir ++ '/' :: nm)
    (hnm : '/' ∉ nm) (hd0 : dir ≠ []) (hdot : dir ≠ ['.']) (hslash : dir ≠ ['/'])
    (hstrat : strategy = "AddVersion".data ∨
      (strategy = "AppendRank".data ∧
        List.Pairwise (fun a b => pyStr a.rank ≠ pyStr b.rank)
          (sortByScoreDesc entries).tail)) :
    ∃ top rest, sortByScoreDesc entries = top :: rest ∧
      resolveGroup strategy entries = top :: rewriteTail strategy 1 rest ∧
      (∀ e ∈ entries, e.score ≤ top.score) ∧
      ((resolveGroup strategy entries).map RenameEntry.newPath).Nodup := by
  cases hs : sortByScoreDesc entries with
  | nil =>
    exfalso
    have := length_sortByScoreDesc entries
    rw [hs] at this
    simp at this
    omega
  | cons top rest =>
    have htop_mem : top ∈ entries := by
      rw [← mem_sortByScoreDesc, hs]
      exact List.mem_cons_self top rest
    have htopn := hsame top htop_mem
    have hrest : ∀ x ∈ rest, x.newFileName = nm ∧ x.newPath = dir ++ '/' :: nm := by
      intro x hx
      apply hsame
      rw [← mem_sortByScoreDesc, hs]
      exact List.mem_cons_of_mem top hx
    have hresolve : resolveGroup strategy entries = top :: rewriteTail strategy 1 rest := by
      unfold resolveGroup
      rw [hs]
    refine ⟨top, rest, rfl, hresolve, ?_, ?_⟩
    · intro e he
      have hes : e ∈ top :: rest := by
        rw [← hs, mem_sortByScoreDesc]
        exact he
      have hsorted := sorted_sortByScoreDesc entries
      rw [hs, List.pairwise_cons] at hsorted
      rcases List.mem_cons.mp hes with rfl | h2
      · exact le_refl _
      · exact hsorted.1 e h2
    · rw [hresolve, List.map_cons]
      rcases hstrat with hadd | ⟨hrank, hpw⟩
      · subst hadd
        rw [rewriteTail_addv_paths nm dir hnm hd0 hdot hslash rest 1 hrest]
        rw [List.nodup_cons]
        constructor
        · intro hmem
          rw [List.mem_map] at hmem
          obtain ⟨i, -, hi⟩ := hmem
          rw [htopn.2] at hi
          have h2 := List.append_cancel_left hi
          rw [List.cons.injEq] at h2
          exact addvName_ne_base nm (1 + i) h2.2
        · apply List.Nodup.map
          · intro i j hij
            have h2 := List.append_cancel_left hij
            rw [List.cons.injEq] at h2
            have := addvName_inj nm (1 + i) (1 + j) h2.2
            omega
          · exact List.nodup_range _
      · subst hrank
        rw [hs, List.tail_cons] at hpw
        rw [rewriteTail_rank_paths nm dir hnm hd0 hdot hslash rest 1 hrest]
        rw [List.nodup_cons]
        constructor
        · intro hmem
          rw [List.mem_map] at hmem
          obtain ⟨x, -, hi⟩ := hmem
          rw [htopn.2] at hi
          have h2 := List.append_cancel_left hi
          rw [List.cons.injEq] at h2
          exact rankName_ne_base nm (pyStr x.rank) h2.2
        · show List.Pairwise _ _
          rw [List.pairwise_map]
          apply hpw.imp
          intro a b hne heq
          have h2 := List.append_cancel_left heq
          rw [List.cons.injEq] at h2
          exact hne (rankName_inj nm _ _ h2.2)

/-- C1 witness: the two Scenario-D-like entries on `d/a.txt` resolve under
`AddVersion` to pairwise-distinct destination paths with the score-9 entry
first and untouched. -/
theorem c1_witness :
    1 < ([c1X, c1Y] : List RenameEntry).length ∧
    ((resolveGroup "AddVersion".data [c1X, c1Y]).map RenameEntry.newPath).Nodup := by
  refine ⟨by decide, ?_⟩
  obtain ⟨top, rest, -, -, -, hnd⟩ :=
    c1_group_resolution_amended "AddVersion".data [c1X, c1Y] "a.txt".data "d".data
      (by decide) (by decide) (by decide) (by decide) (by decide) (by decide)
      (Or.inl rfl)
  exact hnd

end GW
